import Mathlib

/-!
Verification development for the cactus pipeline orchestration scripts
`cactus_graphmap_split.py` and `cactus_align.py`.  Python dictionaries are
embedded as association lists in insertion order (a Python `dict` keeps
insertion order and holds each key once); Python exceptions are embedded as
`Except PyErr`.  Blob-store file ids are natural numbers, and the blob store
itself is passed in as explicit read/write functions.
-/

set_option autoImplicit false
set_option linter.unusedSectionVars false

namespace Cactus

/-- Python exception classes reached by the modelled code paths.
`missingKey` is the spec's name (`MissingKeyError`, spec section 7) for the
`AssertionError` raised by `split_fa_into_contigs` when a non-sentinel genome
has no matching contig. -/
inductive PyErr where
  | keyError
  | typeError
  | missingKey
  | nameError
  | importError
  | indexError
  | assertionError
  deriving Repr, DecidableEq

abbrev BlobId := Nat

instance exceptDecEq {ε α : Type} [DecidableEq ε] [DecidableEq α] :
    DecidableEq (Except ε α) := fun a b =>
  match a, b with
  | .error e, .error e' =>
    if h : e = e' then .isTrue (by rw [h]) else .isFalse (by simp [h])
  | .error _, .ok _ => .isFalse (by simp)
  | .ok _, .error _ => .isFalse (by simp)
  | .ok v, .ok v' =>
    if h : v = v' then .isTrue (by rw [h]) else .isFalse (by simp [h])

/-- Model of Python's `str.startswith`. -/
def pyStartsWith (s pre : String) : Bool := pre.data.isPrefixOf s.data

/-- Model of Python's `str.endswith`. -/
def pyEndsWith (s suf : String) : Bool := suf.data.isSuffixOf s.data

/-- Model of Python's slicing `s[n:]`. -/
def pyDrop (s : String) (n : Nat) : String := ⟨s.data.drop n⟩

/-- Model of Python's `str.strip()`: remove leading and trailing
whitespace. -/
def pyStrip (s : String) : String :=
  ⟨((s.data.dropWhile Char.isWhitespace).reverse.dropWhile Char.isWhitespace).reverse⟩

/-- Helper for `pySplitWs`: walk the characters, accumulating the current
field in reverse. -/
def splitWsChars : List Char → List Char → List String
  | [], acc => if acc.isEmpty then [] else [⟨acc.reverse⟩]
  | ch :: rest, acc =>
    if ch.isWhitespace then
      if acc.isEmpty then splitWsChars rest []
      else (⟨acc.reverse⟩ : String) :: splitWsChars rest []
    else splitWsChars rest (ch :: acc)

/-- Model of Python's `str.split()` with no argument: split on whitespace
runs, discarding empty fields. -/
def pySplitWs (s : String) : List String := splitWsChars s.data []

/-- Lexicographic order on character lists (Python string comparison by code
point). -/
def charListLe : List Char → List Char → Bool
  | [], _ => true
  | _ :: _, [] => false
  | a :: as, b :: bs => if a = b then charListLe as bs else decide (a < b)

/-- Python string comparison `a <= b`. -/
def pyStrLe (a b : String) : Bool := charListLe a.data b.data

/-- Insert into a sorted list of strings. -/
def insertSorted (x : String) : List String → List String
  | [] => [x]
  | y :: rest => if pyStrLe x y then x :: y :: rest else y :: insertSorted x rest

/-- Model of Python's `sorted` on strings (insertion sort). -/
def pySorted (l : List String) : List String := l.foldr insertSorted []

/-- A Python `dict` in insertion order. -/
abbrev Dict (κ V : Type) := List (κ × V)

variable {κ V : Type} [DecidableEq κ]

/-- Lookup (`d[k]` yielding `None` on a missing key). -/
def dlookup (k : κ) : Dict κ V → Option V
  | [] => none
  | (k', v) :: rest => if k = k' then some v else dlookup k rest

/-- Assignment `d[k] = v`: update in place if present, else append. -/
def dinsert (k : κ) (v : V) : Dict κ V → Dict κ V
  | [] => [(k, v)]
  | (k', v') :: rest => if k = k' then (k, v) :: rest else (k', v') :: dinsert k v rest

/-- The key list of a dict, in insertion order. -/
def dkeys (d : Dict κ V) : List κ := d.map Prod.fst

@[simp] theorem dkeys_nil : dkeys ([] : Dict κ V) = [] := rfl

@[simp] theorem dkeys_cons (p : κ × V) (d : Dict κ V) :
    dkeys (p :: d) = p.1 :: dkeys d := rfl

@[simp] theorem dlookup_nil (k : κ) : dlookup k ([] : Dict κ V) = none := rfl

theorem dlookup_cons (k : κ) (p : κ × V) (d : Dict κ V) :
    dlookup k (p :: d) = if k = p.1 then some p.2 else dlookup k d := rfl

theorem dlookup_isSome_iff_mem_dkeys (k : κ) (d : Dict κ V) :
    (dlookup k d).isSome = true ↔ k ∈ dkeys d := by
  induction d with
  | nil => simp
  | cons p rest ih =>
    by_cases h : k = p.1 <;> simp [dlookup_cons, h, ih]

theorem dlookup_dinsert_self (k : κ) (v : V) (d : Dict κ V) :
    dlookup k (dinsert k v d) = some v := by
  induction d with
  | nil => simp [dinsert, dlookup]
  | cons p rest ih =>
    by_cases h : k = p.1
    · simp [dinsert, h.symm, dlookup_cons]
    · have h' : ¬ p.1 = k := fun hh => h hh.symm
      simp [dinsert, h', dlookup_cons, h, ih]

theorem dlookup_dinsert_ne (k k' : κ) (v : V) (d : Dict κ V) (h : k ≠ k') :
    dlookup k (dinsert k' v d) = dlookup k d := by
  induction d with
  | nil => simp [dinsert, dlookup_cons, h]
  | cons p rest ih =>
    by_cases hk : k' = p.1
    · simp [dinsert, hk, dlookup_cons, hk ▸ h]
    · simp only [dinsert, if_neg hk, dlookup_cons, ih]

theorem dkeys_dinsert_mem (k : κ) (v : V) (d : Dict κ V) (h : k ∈ dkeys d) :
    dkeys (dinsert k v d) = dkeys d := by
  induction d with
  | nil => simp at h
  | cons p rest ih =>
    by_cases hk : k = p.1
    · simp [dinsert, hk]
    · have : k ∈ dkeys rest := by
        rcases List.mem_cons.mp h with h | h
        · exact absurd h hk
        · exact h
      simp [dinsert, hk, ih this]

theorem dkeys_dinsert_not_mem (k : κ) (v : V) (d : Dict κ V) (h : k ∉ dkeys d) :
    dkeys (dinsert k v d) = dkeys d ++ [k] := by
  induction d with
  | nil => simp [dinsert]
  | cons p rest ih =>
    have hk : k ≠ p.1 := by
      intro hk; exact h (by simp [hk])
    have : k ∉ dkeys rest := by
      intro hm; exact h (by simp [hm])
    simp [dinsert, hk, ih this]

/-- Values stored in the split table: either a single blob-store file id or a
nested per-genome mapping (the `fa` sub-dictionary added by `gather_fas`). -/
inductive TVal where
  | blob (id : BlobId)
  | sub (m : Dict String BlobId)
  deriving Repr, DecidableEq

/-- One top-level entry of the split table (maps attribute names such as
`gfa`, `paf`, `fa_contigs`, `fa` to values). -/
abbrev Entry := Dict String TVal

/-- The file extensions `split_gfa` collects from the rgfa-split output
directory. -/
def rgfaExts : List String := [".gfa", ".paf", ".fa_contigs"]

/-- One iteration of the `split_gfa` output-collection loop: given the map so
far and one directory entry (already split into base name and extension as
`os.path.splitext` does), record the written blob id under
`output_id_map[name][ext[1:]]`. -/
def split_gfa_step (write : String → BlobId) (m : Dict String Entry)
    (f : String × String) : Dict String Entry :=
  let name := f.1
  let ext := f.2
  if rgfaExts.contains ext then
    let m' := if (dlookup name m).isSome then m else dinsert name [] m
    let entry := (dlookup name m').getD []
    dinsert name (dinsert (pyDrop ext 1) (TVal.blob (write (name ++ ext))) entry) m'
  else m

/-- The output-collection loop of `split_gfa` (cactus_graphmap_split.py lines
193-201): fold over the listing of the rgfa-split output directory, keeping
only `.gfa`, `.paf` and `.fa_contigs` files. -/
def split_gfa (write : String → BlobId) (files : List (String × String)) :
    Dict String Entry :=
  files.foldl (split_gfa_step write) []

/-- The unique-id prefix `id={cactus_id}|` used to select this genome's rows
of a `.fa_contigs` file. -/
def unique_id (cactus_id : Nat) : String := "id=" ++ toString cactus_id ++ "|"

/-- The query contigs of one `.fa_contigs` file that belong to the genome with
the given unique-id prefix: each line is stripped, kept when it starts with
the prefix, and written back without the prefix. -/
def matching_contigs (uid : String) (lines : List String) : List String :=
  ((lines.map pyStrip).filter (fun q => pyStartsWith q uid)).map
    (fun q => pyDrop q uid.length)

/-- The per-reference-contig step of `split_fa_into_contigs`: read the
`fa_contigs` list, count this genome's matching contigs; with at least one
match a new per-contig fasta is written, with zero matches the whole-genome
fasta id is carried through only for the `__MINIGRAPH_SEQUENCES__` sentinel
event (the `assert` at cactus_graphmap_split.py line 264), and any other
event raises. -/
def split_fa_one (event : String) (fa_id : BlobId) (cactus_id : Nat)
    (reads : BlobId → List String) (write : String → BlobId)
    (rc : String) (entry : Entry) : Except PyErr BlobId :=
  match dlookup "fa_contigs" entry with
  | none => .error .keyError
  | some (TVal.sub _) => .error .typeError
  | some (TVal.blob list_id) =>
    let contig_count := (matching_contigs (unique_id cactus_id) (reads list_id)).length
    if contig_count > 0 then
      .ok (write (event ++ "_" ++ rc ++ ".fa"))
    else if event = "__MINIGRAPH_SEQUENCES__" then
      .ok fa_id
    else
      .error .missingKey

/-- The body of `split_fa_into_contigs` (cactus_graphmap_split.py lines
225-267): iterate the reference contigs of the split table in order, building
`contig_fa_dict`.  The split table is a Python dict, so its keys are distinct
and iterating `split_id_map.keys()` visits each entry once. -/
def split_fa_into_contigs (event : String) (fa_id : BlobId) (cactus_id : Nat)
    (reads : BlobId → List String) (write : String → BlobId) :
    Dict String Entry → Except PyErr (Dict String BlobId)
  | [] => .ok []
  | (rc, entry) :: rest =>
    match split_fa_one event fa_id cactus_id reads write rc entry with
    | .error e => .error e
    | .ok v =>
      match split_fa_into_contigs event fa_id cactus_id reads write rest with
      | .error e => .error e
      | .ok d => .ok ((rc, v) :: d)

/-- Cactus event ids used in `split_fas`: alphabetical rank of the event among
the (deduplicated) sequence-map keys, matching
`enumerate(sorted(set(list(seq_id_map.keys()))))`. -/
def cactus_id_of (seq_keys : List String) (event : String) : Nat :=
  (pySorted (seq_keys.dedup)).indexOf event

/-- The fan-out loop of `split_fas` (cactus_graphmap_split.py lines 203-223):
one `split_fa_into_contigs` child per genome of the sequence-id map, results
keyed by event name. -/
def split_fas (seq_id_map : Dict String (String × BlobId))
    (split_id_map : Dict String Entry)
    (reads : BlobId → List String) (write : String → BlobId) :
    Except PyErr (Dict String (Dict String BlobId)) :=
  go seq_id_map
where
  go : Dict String (String × BlobId) → Except PyErr (Dict String (Dict String BlobId))
    | [] => .ok []
    | (event, pr) :: rest =>
      match split_fa_into_contigs event pr.2 (cactus_id_of (dkeys seq_id_map) event)
          reads write split_id_map with
      | .error e => .error e
      | .ok d =>
        match go rest with
        | .error e => .error e
        | .ok m => .ok ((event, d) :: m)

/-- The inner loop of `gather_fas`: build the `fa` sub-dictionary of one
reference contig, one entry per genome of `contig_fa_map`, reading
`fa_id[ref_contig]` (a missing key raises `KeyError`). -/
def gather_inner (rc : String) : Dict String (Dict String BlobId) →
    Except PyErr (Dict String BlobId)
  | [] => .ok []
  | (event, fad) :: rest =>
    match dlookup rc fad with
    | none => .error .keyError
    | some id =>
      match gather_inner rc rest with
      | .error e => .error e
      | .ok d => .ok ((event, id) :: d)

/-- The body of `gather_fas` (cactus_graphmap_split.py lines 269-278): for
every reference contig of the split table, attach the `fa` sub-dictionary
assembled from the per-genome `split_fas` results.  The `seq_id_map` argument
is accepted but unused, as in the source.  The table is a Python dict, so its
keys are distinct and the in-place update over `.keys()` touches each entry
once. -/
def gather_fas (seq_id_map : Dict String (String × BlobId)) :
    Dict String Entry → Dict String (Dict String BlobId) →
    Except PyErr (Dict String Entry)
  | [], _ => .ok []
  | (rc, entry) :: rest, cmap =>
    match gather_inner rc cmap with
    | .error e => .error e
    | .ok fa =>
      match gather_fas seq_id_map rest cmap with
      | .error e => .error e
      | .ok rest' => .ok ((rc, dinsert "fa" (TVal.sub fa) entry) :: rest')

/-- Model of `os.path.join` for two components: an absolute second component
replaces the first, otherwise the components are joined with a single `/`. -/
def pyJoin (a b : String) : String :=
  if pyStartsWith b "/" then b
  else if a = "" ∨ pyEndsWith a "/" then a ++ b
  else a ++ "/" ++ b

/-- Model of `os.path.splitext`: split at the last dot of the basename unless
every character before it (within the basename) is itself a dot. -/
def pySplitext (p : String) : String × String :=
  let cs := p.data
  let n := cs.length
  let sepIdx := (List.range n).foldl (fun acc i => if cs.get? i = some '/' then i + 1 else acc) 0
  let dotIdx := (List.range n).foldl (fun acc i => if cs.get? i = some '.' then some i else acc) none
  match dotIdx with
  | none => (p, "")
  | some d =>
    if d < sepIdx then (p, "")
    else if (List.range' sepIdx (d - sepIdx)).all (fun i => cs.get? i = some '.') then (p, "")
    else (⟨cs.take d⟩, ⟨cs.drop d⟩)

/-- The data written by `export_split_data`: the `chromfile.txt` lines (key,
URL pairs), the per-contig seqfile lines keyed by reference contig, and the
blob-store export calls performed. -/
structure ExportOut where
  chromLines : List (String × String)
  seqfiles : Dict String (List (String × String))
  exports : List (BlobId × String)
  deriving Repr, DecidableEq

/-- The per-reference-contig part of `export_split_data`: export the `gfa` and
`paf` blobs, export one fasta per genome of the `fa` sub-dictionary while
building the seqfile lines, and produce the chromfile map value
`makeURL(seq_file_path)`. -/
def export_one (makeURL : String → String) (output_dir rc : String)
    (entry : Entry) :
    Except PyErr (List (String × String) × List (BlobId × String) × String) :=
  let ref_contig_path := pyJoin output_dir rc
  match dlookup "gfa" entry with
  | none => .error .keyError
  | some (TVal.sub _) => .error .typeError
  | some (TVal.blob gfa_id) =>
    match dlookup "paf" entry with
    | none => .error .keyError
    | some (TVal.sub _) => .error .typeError
    | some (TVal.blob paf_id) =>
      match dlookup "fa" entry with
      | none => .error .keyError
      | some (TVal.blob _) => .error .typeError
      | some (TVal.sub fa) =>
        let fa_base := pyJoin ref_contig_path "fasta"
        let seq_lines := fa.map (fun p =>
          (p.1, makeURL (pyJoin fa_base (p.1 ++ "_" ++ rc ++ ".fa"))))
        let fa_exports := fa.map (fun p =>
          (p.2, makeURL (pyJoin fa_base (p.1 ++ "_" ++ rc ++ ".fa"))))
        let exports :=
          (gfa_id, makeURL (pyJoin ref_contig_path (rc ++ ".gfa"))) ::
          (paf_id, makeURL (pyJoin ref_contig_path (rc ++ ".paf"))) :: fa_exports
        let seq_file_path := pyJoin ref_contig_path (rc ++ ".seqfile")
        .ok (seq_lines, exports, makeURL seq_file_path)

/-- The body of `export_split_data` (cactus_graphmap_split.py lines 280-318):
walk the gathered table in key order, export each contig's artifacts, write
each per-contig seqfile, and finally write `chromfile.txt` with one line per
reference contig of `chrom_file_map`. -/
def export_split_data (makeURL : String → String) (output_dir : String) :
    Dict String Entry → Except PyErr ExportOut
  | [] => .ok ⟨[], [], []⟩
  | (rc, entry) :: rest =>
    match export_one makeURL output_dir rc entry with
    | .error e => .error e
    | .ok (seq_lines, exports, chrom_val) =>
      match export_split_data makeURL output_dir rest with
      | .error e => .error e
      | .ok out =>
        .ok ⟨(rc, makeURL chrom_val) :: out.chromLines,
             (rc, seq_lines) :: out.seqfiles,
             exports ++ out.exports⟩

/-! The cactus-align side (`cactus_align.py`). -/

/-- The slice of the cactus-align options bag that the modelled code paths
read or write.  `checkpointInfo` is `(awsRegion, outHal)` when the output
target is an s3 sink, `none` otherwise. -/
structure MainOpts where
  outHal : String
  jobStore : String
  batch : Bool
  outVG : Bool
  outGFA : Bool
  pangenome : Bool
  pafInput : Bool
  usePafSecondaries : Bool
  nonCactusInput : Bool
  stagger : Nat
  seqFile : String
  cigarsFile : List String
  checkpointInfo : Option (String × String)
  eventNameAsID : Bool
  deriving Repr, DecidableEq

/-- The per-chromosome checkpoint path: when checkpoint info is present,
replace its output path by `<path>/<chrom>.hal` (cactus_align.py lines
222-224). -/
def chrom_checkpoint (cp : Option (String × String)) (chrom : String) :
    Option (String × String) :=
  match cp with
  | some (r, p) => some (r, pyJoin p (chrom ++ ".hal"))
  | none => none

/-- The options record built for one chromosome of the batch
(cactus_align.py lines 217-224): a copy of the parent options with the batch
flag cleared and its own seqfile, cigars file, stagger delay and checkpoint
path. -/
def mkChromOptions (options : MainOpts) (stagger_delay : Nat)
    (chrom seqfile alnFile : String) : MainOpts :=
  { options with
    batch := false
    seqFile := seqfile
    cigarsFile := [alnFile]
    stagger := stagger_delay
    checkpointInfo := chrom_checkpoint options.checkpointInfo chrom }

/-- The body of `make_batch_align_jobs` (cactus_align.py lines 204-231):
in batch mode read the chrom file, skipping blank lines, requiring three
whitespace-separated fields per line, and handing each chromosome a copy of
the options with an increasing stagger delay; otherwise a single entry keyed
by `None`. -/
def make_batch_align_jobs (options : MainOpts) (chromLines : List String) :
    Except PyErr (Dict (Option String) MainOpts) :=
  if options.batch then go 0 [] chromLines else .ok [(none, options)]
where
  go (stagger_delay : Nat) (acc : Dict (Option String) MainOpts) :
      List String → Except PyErr (Dict (Option String) MainOpts)
    | [] => .ok acc
    | line :: rest =>
      match pySplitWs line with
      | [] => go stagger_delay acc rest
      | [chrom, seqfile, alnFile] =>
        go (stagger_delay + options.stagger)
          (dinsert (some chrom) (mkChromOptions options stagger_delay chrom seqfile alnFile) acc)
          rest
      | _ => .error .assertionError

/-- Characterization helper: the chrom-file lines parsed to
(chrom, seqfile, alnFile) triples, skipping blank lines and failing on any
line without exactly three fields, as `make_batch_align_jobs` does. -/
def parse_chrom_lines : List String → Except PyErr (List (String × String × String))
  | [] => .ok []
  | line :: rest =>
    match pySplitWs line with
    | [] => parse_chrom_lines rest
    | [chrom, seqfile, alnFile] =>
      match parse_chrom_lines rest with
      | .error e => .error e
      | .ok ts => .ok ((chrom, seqfile, alnFile) :: ts)
    | _ => .error .assertionError

/-- Characterization helper: the job table built from parsed triples, the
delay growing by `options.stagger` per chromosome. -/
def stagger_jobs (options : MainOpts) (stagger_delay : Nat) :
    List (String × String × String) → Dict (Option String) MainOpts
  | [] => []
  | (chrom, seqfile, alnFile) :: rest =>
    (some chrom, mkChromOptions options stagger_delay chrom seqfile alnFile) ::
      stagger_jobs options (stagger_delay + options.stagger) rest

/-- Observable actions of the body of `run_cactus_align`: the initial
`time.sleep(delay)` (cactus_align.py line 422) followed by spawning the
alignment child jobs. -/
inductive AlignAction where
  | sleep (seconds : Nat)
  | spawnWork
  deriving Repr, DecidableEq

/-- The action trace of `run_cactus_align`: it sleeps for its delay argument
before any real work. -/
def run_cactus_align_actions (delay : Nat) : List AlignAction :=
  [.sleep delay, .spawnWork]

/-- The body of the Task built by `make_align_job` sleeps for the stagger
delay of the options it was built from (`delay=options.stagger`,
cactus_align.py line 415). -/
def align_job_body_actions (options : MainOpts) : List AlignAction :=
  run_cactus_align_actions options.stagger

/-- A blob-store reference whose size is obtainable without the blob body
(the toil file id carrying `.size`). -/
structure BlobRef where
  id : BlobId
  size : Nat
  deriving Repr, DecidableEq

/-- The configuration attributes `export_vg` reads (the `graphmap` and
`hal2vg` nodes of the cactus XML config, via `getOptionalAttrib`). -/
structure Hal2VgConfig where
  assemblyName : String
  hal2vgOptions : String
  includeMinigraph : Bool
  includeAncestor : Bool
  prependGenomeNames : Bool
  internalNodePref : String
  deriving Repr, DecidableEq

/-- The hal2vg option list `export_vg` assembles from the config
(cactus_align.py lines 583-597). -/
def hal2vg_opts (c : Hal2VgConfig) : List String :=
  let base := if c.hal2vgOptions = "" then [] else c.hal2vgOptions.splitOn " "
  let ignore_events :=
    (if ¬ c.includeMinigraph then [c.assemblyName] else []) ++
    (if ¬ c.includeAncestor then [c.internalNodePref ++ "0"] else [])
  let base := base ++
    (if ignore_events ≠ [] then ["--ignoreGenomes", String.intercalate "," ignore_events] else [])
  base ++ (if ¬ c.prependGenomeNames then ["--onlySequenceNames"] else [])

/-- What one invocation of the `export_vg` Task does: either re-submit itself
as a single sized child (carrying the same arguments with `resource_spec`
set and the disk/memory annotations) and return that child's promise, or run
the conversion directly. -/
inductive VgResult where
  | resubmit (hal : BlobRef) (doVG doGFA : Bool)
      (checkpointInfo : Option (String × String)) (resource_spec : Bool)
      (disk mem : Nat)
  | done (cmd : List String) (sinkWrites : List (String × String))
      (vg gfa : Option BlobId)
  deriving Repr, DecidableEq

/-- The body of `export_vg` (cactus_align.py lines 568-618).  Unsized
(`resource_spec = false`) it re-submits one sized child with
`disk = hal.size * 3` and `memory = hal.size * 10` and returns its promise;
sized it runs hal2vg, writes the vg (and, with `doGFA`, the gfa) directly to
the s3 sink when checkpoint info is present, and stores the requested
outputs. -/
def export_vg (c : Hal2VgConfig) (hal : BlobRef) (doVG doGFA : Bool)
    (checkpointInfo : Option (String × String)) (resource_spec : Bool)
    (write : String → BlobId) : VgResult :=
  if ¬ resource_spec then
    .resubmit hal doVG doGFA checkpointInfo true (hal.size * 3) (hal.size * 10)
  else
    let cmd := ["hal2vg", "out.hal"] ++ hal2vg_opts c
    let vg_writes :=
      match checkpointInfo with
      | some (region, path) => [((pySplitext path).1 ++ ".vg", region)]
      | none => []
    let gfa_writes :=
      if doGFA then
        match checkpointInfo with
        | some (region, path) => [((pySplitext path).1 ++ ".gfa.gz", region)]
        | none => []
      else []
    .done cmd (vg_writes ++ gfa_writes)
      (if doVG then some (write "out.vg") else none)
      (if doGFA then some (write "out.gfa.gz") else none)

/-- The direct s3-sink writes performed by the sized run of `export_vg`. -/
def export_vg_writes (c : Hal2VgConfig) (hal : BlobRef) (doVG doGFA : Bool)
    (checkpointInfo : Option (String × String)) (write : String → BlobId) :
    List (String × String) :=
  match export_vg c hal doVG doGFA checkpointInfo true write with
  | .done _ w _ _ => w
  | _ => []

/-- Modelled from the spec: `exportHal` (cactus.progressive.cactus_progressive,
repository code not under src/) writes the produced hal directly to the
external durable sink when checkpoint info is threaded to it, so that a
mid-run interruption has already preserved the artifact (spec section 4.5). -/
def exportHal_writes (checkpointInfo : Option (String × String)) :
    List (String × String) :=
  match checkpointInfo with
  | some (region, path) => [(path, region)]
  | none => []

/-- The direct s3-sink writes of one per-chromosome task body: the hal write
from `exportHal` and, when a vg or gfa export is requested, the writes of the
sized `export_vg` run that `run_cactus_align` chains after it
(cactus_align.py lines 455-469). -/
def chrom_job_writes (c : Hal2VgConfig) (options : MainOpts) (hal : BlobRef)
    (write : String → BlobId) : List (String × String) :=
  exportHal_writes options.checkpointInfo ++
    (if options.outVG ∨ options.outGFA then
      export_vg_writes c hal options.outVG options.outGFA options.checkpointInfo write
    else [])

/-! The import phase of `make_align_job` (cactus_align.py lines 303-403) and
the surrounding main flow.  The blob store import is a partial function from
URL-ish paths to file ids; `none` models a failing `toil.importFile`. -/

/-- Model of `os.path.basename`: the part after the last `/`. -/
def pyBasename (p : String) : String :=
  ⟨(p.data.reverse.takeWhile (fun c => c ≠ '/')).reverse⟩

/-- The suffix-driven input-path lookup `get_input_path` of `make_align_job`
(cactus_align.py lines 304-311); fails with `IndexError` on an empty cigars
list. -/
def get_input_path (cigarsFile : List String) (suffix : String) :
    Except PyErr String :=
  match cigarsFile with
  | [] => .error .indexError
  | first :: _ =>
    match cigarsFile.find? (fun ip => suffix ≠ "" ∧ pyEndsWith ip suffix) with
    | some ip => .ok ip
    | none => .ok (base_loop first cigarsFile ++ suffix)
where
  base_loop (base : String) : List String → String
    | [] => base
    | ip :: rest =>
      if pyStartsWith (pyBasename base) (pyBasename ip) then base_loop ip rest
      else base_loop base rest

/-- The state produced by the outgroup-import loop of `make_align_job`. -/
structure OutgroupImports where
  outgroupIDs : List BlobId
  outgroup_fragment_found : Bool
  seqIDs : Dict String BlobId
  deriving Repr, DecidableEq

/-- The outgroup-fragment import loop (cactus_align.py lines 313-327): each
fragment import, the sequence-id update and the `assert not pangenome` all
sit inside a `try` whose handler empties the id list and breaks, so a
failing fragment import or a failing assert is swallowed, never reported. -/
def import_outgroups (store : String → Option BlobId) (cigarsFile : List String)
    (pangenome : Bool) : List (Nat × String) → OutgroupImports → OutgroupImports
  | [], st => st
  | (i, og) :: rest, st =>
    match get_input_path cigarsFile (".og_fragment_" ++ toString i) with
    | .error _ => { st with outgroupIDs := [] }
    | .ok path =>
      match store path with
      | none => { st with outgroupIDs := [] }
      | some id =>
        let st' : OutgroupImports :=
          { outgroupIDs := st.outgroupIDs ++ [id]
            outgroup_fragment_found := true
            seqIDs := dinsert og id st.seqIDs }
        if pangenome then { st' with outgroupIDs := [] }
        else import_outgroups store cigarsFile pangenome rest st'

/-- The alignment-file imports of `make_align_job` (cactus_align.py lines
391-398 and 401-403): outcome of the import phase. -/
structure AlignImports where
  outgroups : OutgroupImports
  alignmentsID : BlobId
  secondaryAlignmentsID : Option BlobId
  ingroupCoverageIDs : List BlobId
  deriving Repr, DecidableEq

/-- The import phase of `make_align_job`: the outgroup loop with its
swallowed failures, the unguarded primary-alignments import, the
`.secondary` import whose failure is caught and ignored (`except: pass`),
and the unguarded ingroup-coverage imports when fragments were found. -/
def make_align_imports (store : String → Option BlobId)
    (cigarsFile : List String) (pangenome pafInput : Bool)
    (outgroups leaves : List String) : Except PyErr AlignImports :=
  let og := import_outgroups store cigarsFile pangenome
    outgroups.enum ⟨[], false, []⟩
  match get_input_path cigarsFile "" with
  | .error e => .error e
  | .ok primaryPath =>
    match store primaryPath with
    | none => .error .importError
    | some alignmentsID =>
      let secondary : Option BlobId :=
        if ¬ pafInput then
          match get_input_path cigarsFile ".secondary" with
          | .error _ => none
          | .ok sp => store sp
        else none
      let covE : Except PyErr (List BlobId) :=
        if og.outgroup_fragment_found ∧ outgroups ≠ [] then
          ig_loop store cigarsFile leaves.length 0
        else .ok []
      match covE with
      | .error e => .error e
      | .ok cov => .ok ⟨og, alignmentsID, secondary, cov⟩
where
  ig_loop (store : String → Option BlobId) (cigarsFile : List String) :
      Nat → Nat → Except PyErr (List BlobId)
    | 0, _ => .ok []
    | n + 1, i =>
      match get_input_path cigarsFile (".ig_coverage_" ++ toString i) with
      | .error e => .error e
      | .ok p =>
        match store p with
        | none => .error .importError
        | some id =>
          match ig_loop store cigarsFile n (i + 1) with
          | .error e => .error e
          | .ok rest => .ok (id :: rest)

/-! The main flow of cactus-align (cactus_align.py lines 104-195). -/

/-- The checkpoint-info setup of main (cactus_align.py lines 128-139): an
`s3://` output target yields `(get_aws_region(jobStore), outHal)`, any other
target yields no checkpoint info. -/
def main_checkpointInfo (getAwsRegion : String → String)
    (outHal jobStore : String) : Option (String × String) :=
  if pyStartsWith outHal "s3://" then some (getAwsRegion jobStore, outHal)
  else none

/-- The batch-mode argument check of main (cactus_align.py lines 141-147):
batch mode takes no cigars files, non-batch mode requires at least one. -/
def main_batch_check (options : MainOpts) : Except PyErr Unit :=
  if options.batch then
    if options.cigarsFile = [] then .ok () else .error .assertionError
  else
    if options.cigarsFile ≠ [] then .ok () else .error .assertionError

/-- The unique-id mode selection of main (cactus_align.py lines 155-159).
When the `CACTUS_EVENT_NAME_AS_UNIQUE_ID` environment variable is present
the branch body evaluates the undefined name `eventName` (inside
`bool(eventName)`), so Python raises `NameError` for every value of the
variable; otherwise the mode bit is `pangenome or pafInput`. -/
def main_eventNameAsID (env : Option String) (options : MainOpts) :
    Except PyErr MainOpts :=
  match env with
  | some _ => .error .nameError
  | none => .ok { options with eventNameAsID := options.pangenome || options.pafInput }

/-- The part of main that runs before the workflow is started: checkpoint
setup, batch argument check, unique-id mode selection, then the job
construction handed to `toil.start`.  An error anywhere here short-circuits,
so no workflow is started. -/
def main_start (getAwsRegion : String → String) (env : Option String)
    (options : MainOpts) (chromLines : List String) :
    Except PyErr (MainOpts × Dict (Option String) MainOpts) :=
  let options := { options with
    checkpointInfo := main_checkpointInfo getAwsRegion options.outHal options.jobStore }
  match main_batch_check options with
  | .error e => .error e
  | .ok _ =>
    match main_eventNameAsID env options with
    | .error e => .error e
    | .ok options =>
      match make_batch_align_jobs options chromLines with
      | .error e => .error e
      | .ok js => .ok (options, js)

/-- Formatting of a result key in the post-run export loop (`'{}.hal'.format`
on the dict key, which is a chromosome name or `None`). -/
def fmtKey : Option String → String
  | some c => c
  | none => "None"

/-- The per-chromosome exports of the post-run loop (cactus_align.py lines
176-181): the hal always, the vg and gfa when requested (exporting a missing
result id fails). -/
def export_triple (makeURL : String → String) (options : MainOpts)
    (chrom : String) (r : BlobId × Option BlobId × Option BlobId) :
    Except PyErr (List (BlobId × String)) :=
  let vgE : Except PyErr (List (BlobId × String)) :=
    if options.outVG then
      match r.2.1 with
      | some v => .ok [(v, makeURL (pyJoin options.outHal (chrom ++ ".vg")))]
      | none => .error .typeError
    else .ok []
  let gfaE : Except PyErr (List (BlobId × String)) :=
    if options.outGFA then
      match r.2.2 with
      | some g => .ok [(g, makeURL (pyJoin options.outHal (chrom ++ ".gfa.gz")))]
      | none => .error .typeError
    else .ok []
  match vgE, gfaE with
  | .error e, _ => .error e
  | .ok _, .error e => .error e
  | .ok vs, .ok gs =>
    .ok ((r.1, makeURL (pyJoin options.outHal (chrom ++ ".hal"))) :: vs ++ gs)

/-- The post-run export step of main (cactus_align.py lines 171-191): skipped
entirely for an `s3://` output target; otherwise one export per artifact, per
chromosome in batch mode, or for the single `None`-keyed result in non-batch
mode (which also asserts that shape). -/
def main_post_run_exports (makeURL : String → String) (options : MainOpts)
    (results : Dict (Option String) (BlobId × Option BlobId × Option BlobId)) :
    Except PyErr (List (BlobId × String)) :=
  if ¬ pyStartsWith options.outHal "s3://" then
    if options.batch then batch_go makeURL options results
    else
      match results with
      | [(none, r)] =>
        let vgE : Except PyErr (List (BlobId × String)) :=
          if options.outVG then
            match r.2.1 with
            | some v => .ok [(v, makeURL ((pySplitext options.outHal).1 ++ ".vg"))]
            | none => .error .typeError
          else .ok []
        let gfaE : Except PyErr (List (BlobId × String)) :=
          if options.outGFA then
            match r.2.2 with
            | some g => .ok [(g, makeURL ((pySplitext options.outHal).1 ++ ".gfa.gz"))]
            | none => .error .typeError
          else .ok []
        match vgE, gfaE with
        | .error e, _ => .error e
        | .ok _, .error e => .error e
        | .ok vs, .ok gs => .ok ((r.1, makeURL options.outHal) :: vs ++ gs)
      | _ => .error .assertionError
  else .ok []
where
  batch_go (makeURL : String → String) (options : MainOpts) :
      Dict (Option String) (BlobId × Option BlobId × Option BlobId) →
      Except PyErr (List (BlobId × String))
    | [] => .ok []
    | (k, r) :: rest =>
      match export_triple makeURL options (fmtKey k) r with
      | .error e => .error e
      | .ok es =>
        match batch_go makeURL options rest with
        | .error e => .error e
        | .ok rest' => .ok (es ++ rest')

/-! Modelled from the spec: the Task scheduler semantics of the host executor
(toil, an external collaborator; spec sections 3-5).  Tasks of the
graphmap-split workflow are finitely many, the graph wiring below is the one
built by `graphmap_split_workflow` (cactus_graphmap_split.py lines 145-172)
and `split_fas` (lines 203-223). -/

/-- The Tasks of the graphmap-split workflow with `n` genomes: the workflow
job itself, its empty root child, the optional unzip children, the three
follow-on stages and the per-genome fasta-split children. -/
inductive STask (n : Nat) where
  | wf
  | root
  | unzipGfa
  | unzipPaf
  | splitGfa
  | splitFas
  | splitFasRoot
  | splitFaChild (i : Fin n)
  | gatherFas
  deriving DecidableEq

/-- Child edges of the graphmap-split job graph, as wired by the source:
the workflow job adds `root`; `root` gets an unzip child per gzipped input
(lines 155-160); `split_fas` adds its own empty root job (lines 206-207)
which gets one `split_fa_into_contigs` child per genome (lines 217-221). -/
def children {n : Nat} (gzGfa gzPaf : Bool) : STask n → List (STask n)
  | .wf => [.root]
  | .root => (if gzGfa then [.unzipGfa] else []) ++ (if gzPaf then [.unzipPaf] else [])
  | .splitFas => [.splitFasRoot]
  | .splitFasRoot => List.ofFn (fun i => .splitFaChild i)
  | _ => []

/-- Follow-on edges, as wired by the source: `split_gfa` follows the root
(line 163), `split_fas` follows `split_gfa` (line 166), `gather_fas` follows
`split_fas` (line 169). -/
def followOns {n : Nat} : STask n → List (STask n)
  | .root => [.splitGfa]
  | .splitGfa => [.splitFas]
  | .splitFas => [.gatherFas]
  | _ => []

/-- Successor edges: children plus follow-ons. -/
def succs {n : Nat} (gzGfa gzPaf : Bool) (t : STask n) : List (STask n) :=
  children gzGfa gzPaf t ++ followOns t

/-- Fuel-bounded descendant list: the node itself plus the successor closure
of its children and follow-ons.  Fuel 8 exceeds the depth of this graph. -/
def desc {n : Nat} (gzGfa gzPaf : Bool) : Nat → STask n → List (STask n)
  | 0, t => [t]
  | fuel + 1, t => t :: (succs gzGfa gzPaf t).flatMap (desc gzGfa gzPaf fuel)

/-- Modelled from the spec: the subtree of a Task (spec section 3, the
follow-on barrier): the Task itself together with all its children
recursively, including those children's own children and follow-ons. -/
def subtree {n : Nat} (gzGfa gzPaf : Bool) (p : STask n) : List (STask n) :=
  p :: (children gzGfa gzPaf p).flatMap (desc gzGfa gzPaf 8)

/-- Modelled from the spec: a schedule of the graphmap-split job graph that a
conforming host executor may produce (spec sections 3 and 8): every Task
finishes no earlier than it starts, a dynamically added child starts no
earlier than the parent that spawned it, and a follow-on Task starts no
earlier than the completion of every Task in its parent's subtree. -/
structure Schedule (n : Nat) (gzGfa gzPaf : Bool) where
  start : STask n → Nat
  finish : STask n → Nat
  start_le_finish : ∀ t, start t ≤ finish t
  child_after_parent : ∀ p c, c ∈ children (n := n) gzGfa gzPaf p → start p ≤ start c
  followOn_barrier : ∀ p f, f ∈ followOns p →
    ∀ t, t ∈ subtree gzGfa gzPaf p → finish t ≤ start f

/-- The options record main hands to the workflow when the environment flag
is unset: checkpoint info resolved from the output target, unique-id mode
from the pangenome/paf flags. -/
def main_opts_after (g : String → String) (opts : MainOpts) : MainOpts :=
  { opts with
    checkpointInfo := main_checkpointInfo g opts.outHal opts.jobStore
    eventNameAsID := opts.pangenome || opts.pafInput }

/-- A valid schedule of the graph with one genome and both inputs gzipped,
executing the stages in topological order. -/
def schedOne : Schedule 1 true true where
  start t :=
    match t with
    | .wf => 0
    | .root => 1
    | .unzipGfa => 2
    | .unzipPaf => 2
    | .splitGfa => 3
    | .splitFas => 4
    | .splitFasRoot => 5
    | .splitFaChild _ => 6
    | .gatherFas => 7
  finish t :=
    match t with
    | .wf => 0
    | .root => 1
    | .unzipGfa => 2
    | .unzipPaf => 2
    | .splitGfa => 3
    | .splitFas => 4
    | .splitFasRoot => 5
    | .splitFaChild _ => 6
    | .gatherFas => 7
  start_le_finish := by intro t; cases t <;> simp
  child_after_parent := by
    intro p c hc
    cases p <;> simp [children, Set.mem_range] at hc
    · subst hc; simp
    · rcases hc with hc | hc <;> subst hc <;> simp
    · subst hc; simp
    · subst hc; simp
  followOn_barrier := by
    intro p f hf t ht
    cases p <;> simp [followOns] at hf <;> subst hf
    · simp only [subtree, children, desc, succs, followOns] at ht
      simp at ht
      rcases ht with ht | ht | ht <;> subst ht <;> simp
    · simp only [subtree, children, desc, succs, followOns] at ht
      simp at ht
      subst ht; simp
    · simp only [subtree, children, desc, succs, followOns] at ht
      simp [List.ofFn_succ] at ht
      rcases ht with ht | ht | ht <;> subst ht <;> simp

/-! Theorems. -/

theorem dinsert_eq_append (k : κ) (v : V) (d : Dict κ V) (h : k ∉ dkeys d) :
    dinsert k v d = d ++ [(k, v)] := by
  induction d with
  | nil => simp [dinsert]
  | cons p rest ih =>
    have hk : k ≠ p.1 := fun hk => h (by simp [hk])
    have : k ∉ dkeys rest := fun hm => h (by simp [hm])
    simp [dinsert, hk, ih this]

/-- C3: the resource-sensitive VG-export task invoked unsized re-submits
exactly one sized child with the same arguments, annotated with
disk three times and memory ten times the input hal size, and returns its
promise; the sized invocation runs directly and never re-submits. -/
theorem export_vg_two_phase (c : Hal2VgConfig) (hal : BlobRef)
    (doVG doGFA : Bool) (cp : Option (String × String))
    (write : String → BlobId) :
    export_vg c hal doVG doGFA cp false write =
      VgResult.resubmit hal doVG doGFA cp true (hal.size * 3) (hal.size * 10) ∧
    ∃ cmd w vg gfa,
      export_vg c hal doVG doGFA cp true write = VgResult.done cmd w vg gfa := by
  exact ⟨by simp [export_vg], _, _, _, _, rfl⟩

theorem main_batch_check_checkpoint (options : MainOpts)
    (cp : Option (String × String)) :
    main_batch_check { options with checkpointInfo := cp } =
      main_batch_check options := rfl

/-- C10: with the `CACTUS_EVENT_NAME_AS_UNIQUE_ID` environment variable set
to any value, main fails with `NameError` (the branch reads the undefined
name `eventName`) before the workflow is started; in every run that reaches
the workflow the `eventNameAsID` mode bit equals `pangenome or pafInput`. -/
theorem main_start_none_eq (g : String → String) (opts : MainOpts)
    (lines : List String)
    (hchk : main_batch_check opts = Except.ok ()) :
    main_start g none opts lines =
      (match make_batch_align_jobs
          { opts with
            checkpointInfo := main_checkpointInfo g opts.outHal opts.jobStore
            eventNameAsID := opts.pangenome || opts.pafInput } lines with
        | .error e => .error e
        | .ok js => .ok
            ({ opts with
               checkpointInfo := main_checkpointInfo g opts.outHal opts.jobStore
               eventNameAsID := opts.pangenome || opts.pafInput }, js)) := by
  have hchk2 : main_batch_check
      { opts with checkpointInfo := main_checkpointInfo g opts.outHal opts.jobStore } =
      Except.ok () :=
    (main_batch_check_checkpoint opts _).trans hchk
  simp only [main_start, hchk2, main_eventNameAsID]

/-- C10: with the `CACTUS_EVENT_NAME_AS_UNIQUE_ID` environment variable set
to any value, main fails with `NameError` (the branch reads the undefined
name `eventName`) before the workflow is started; in every run that reaches
the workflow the `eventNameAsID` mode bit equals `pangenome or pafInput`. -/
theorem env_flag_raises_nameError (g : String → String) (opts : MainOpts)
    (lines : List String) (v : String)
    (hchk : main_batch_check opts = Except.ok ()) :
    main_start g (some v) opts lines = .error .nameError ∧
    (∀ opts' js, main_start g none opts lines = .ok (opts', js) →
      opts'.eventNameAsID = (opts.pangenome || opts.pafInput)) := by
  constructor
  · have hchk2 : main_batch_check
        { opts with checkpointInfo := main_checkpointInfo g opts.outHal opts.jobStore } =
        Except.ok () :=
      (main_batch_check_checkpoint opts _).trans hchk
    simp only [main_start, hchk2, main_eventNameAsID]
  · intro opts' js h
    rw [main_start_none_eq g opts lines hchk] at h
    rcases hb : make_batch_align_jobs
        { opts with
          checkpointInfo := main_checkpointInfo g opts.outHal opts.jobStore
          eventNameAsID := opts.pangenome || opts.pafInput } lines with e | js'
    · rw [hb] at h; simp at h
    · rw [hb] at h
      simp only [Except.ok.injEq, Prod.mk.injEq] at h
      rw [← h.1]

theorem env_flag_raises_nameError_witness :
    main_start (fun _ => "region")
        (some "1")
        { outHal := "out.hal", jobStore := "./js", batch := false,
          outVG := false, outGFA := false, pangenome := true,
          pafInput := false, usePafSecondaries := false,
          nonCactusInput := false, stagger := 0, seqFile := "seq.txt",
          cigarsFile := ["aln.paf"], checkpointInfo := none,
          eventNameAsID := false } [] = .error .nameError := by
  exact (env_flag_raises_nameError (fun _ => "region")
    { outHal := "out.hal", jobStore := "./js", batch := false,
      outVG := false, outGFA := false, pangenome := true,
      pafInput := false, usePafSecondaries := false,
      nonCactusInput := false, stagger := 0, seqFile := "seq.txt",
      cigarsFile := ["aln.paf"], checkpointInfo := none,
      eventNameAsID := false } [] "1" (by rfl)).1

theorem stagger_jobs_length (options : MainOpts) (d : Nat)
    (trips : List (String × String × String)) :
    (stagger_jobs options d trips).length = trips.length := by
  induction trips generalizing d with
  | nil => rfl
  | cons t rest ih =>
    obtain ⟨c, s, a⟩ := t
    simp [stagger_jobs, ih]

theorem stagger_jobs_keys (options : MainOpts) (d : Nat)
    (trips : List (String × String × String)) :
    dkeys (stagger_jobs options d trips) = trips.map (fun t => some t.1) := by
  induction trips generalizing d with
  | nil => rfl
  | cons t rest ih =>
    obtain ⟨c, s, a⟩ := t
    simp [stagger_jobs, ih]

theorem stagger_jobs_get (options : MainOpts) (d : Nat)
    (trips : List (String × String × String)) (n : Nat)
    (h : n < (stagger_jobs options d trips).length) (h' : n < trips.length) :
    (stagger_jobs options d trips).get ⟨n, h⟩ =
      (some (trips.get ⟨n, h'⟩).1,
        mkChromOptions options (d + n * options.stagger)
          (trips.get ⟨n, h'⟩).1 (trips.get ⟨n, h'⟩).2.1 (trips.get ⟨n, h'⟩).2.2) := by
  induction trips generalizing d n with
  | nil => simp at h'
  | cons t rest ih =>
    obtain ⟨c, s, a⟩ := t
    cases n with
    | zero => simp [stagger_jobs]
    | succ m =>
      have hm' : m < rest.length := by
        rw [stagger_jobs_length] at h
        exact Nat.lt_of_succ_lt_succ (by simpa using h)
      have hm : m < (stagger_jobs options (d + options.stagger) rest).length := by
        rw [stagger_jobs_length]; exact hm'
      have key := ih (d + options.stagger) m hm hm'
      rw [show d + (m + 1) * options.stagger =
        d + options.stagger + m * options.stagger from by ring]
      simpa [stagger_jobs] using key

theorem make_batch_go_ok (options : MainOpts) (lines : List String)
    (trips : List (String × String × String))
    (hp : parse_chrom_lines lines = .ok trips)
    (d : Nat) (acc : Dict (Option String) MainOpts)
    (hfresh : ∀ t ∈ trips, (some t.1) ∉ dkeys acc)
    (hnd : (trips.map Prod.fst).Nodup) :
    make_batch_align_jobs.go options d acc lines =
      .ok (acc ++ stagger_jobs options d trips) := by
  induction lines generalizing trips d acc with
  | nil =>
    simp only [parse_chrom_lines, Except.ok.injEq] at hp
    subst hp
    simp [make_batch_align_jobs.go, stagger_jobs]
  | cons line rest ih =>
    rcases hsplit : pySplitWs line with _ | ⟨c, _ | ⟨s, _ | ⟨a, _ | _⟩⟩⟩ <;>
      simp only [parse_chrom_lines, hsplit] at hp <;>
      simp only [make_batch_align_jobs.go, hsplit]
    · exact ih trips hp d acc hfresh hnd
    · exact absurd hp (by simp)
    · exact absurd hp (by simp)
    · rcases hpr : parse_chrom_lines rest with e | ts <;> rw [hpr] at hp
      · exact absurd hp (by simp)
      · simp only [Except.ok.injEq] at hp
        subst hp
        have hcfresh : (some c) ∉ dkeys acc := hfresh (c, s, a) (by simp)
        have hacc : dinsert (some c) (mkChromOptions options d c s a) acc =
            acc ++ [(some c, mkChromOptions options d c s a)] :=
          dinsert_eq_append _ _ _ hcfresh
        rw [hacc]
        have hnd' : (ts.map Prod.fst).Nodup := (List.nodup_cons.mp hnd).2
        have hfresh' : ∀ t ∈ ts, (some t.1) ∉
            dkeys (acc ++ [(some c, mkChromOptions options d c s a)]) := by
          intro t ht hmem
          simp only [dkeys, List.map_append, List.mem_append] at hmem
          rcases hmem with hmem | hmem
          · exact hfresh t (by simp [ht]) hmem
          · simp at hmem
            have heq : t.1 = c := by simpa using hmem
            have hmm : t.1 ∈ ts.map Prod.fst := List.mem_map_of_mem Prod.fst ht
            rw [heq] at hmm
            exact (List.nodup_cons.mp hnd).1 hmm
        have := ih ts hpr (d + options.stagger)
          (acc ++ [(some c, mkChromOptions options d c s a)]) hfresh' hnd'
        rw [this]
        simp [stagger_jobs]
    · exact absurd hp (by simp)

/-- Characterization of `make_batch_align_jobs` in batch mode with
well-formed chrom-file lines and distinct chromosome names. -/
theorem make_batch_align_jobs_ok (options : MainOpts) (lines : List String)
    (trips : List (String × String × String))
    (hb : options.batch = true)
    (hp : parse_chrom_lines lines = .ok trips)
    (hnd : (trips.map Prod.fst).Nodup) :
    make_batch_align_jobs options lines = .ok (stagger_jobs options 0 trips) := by
  unfold make_batch_align_jobs
  rw [hb]
  simpa using make_batch_go_ok options lines trips hp 0 [] (by simp [dkeys]) hnd

/-- C4: in batch mode with stagger parameter S, the Nth job (file order,
from zero) is assigned an in-body delay of N × S seconds, the job body
sleeps for exactly its assigned delay before any real work, consecutive
assigned delays grow by exactly S, and assuming a common dispatch instant
the in-body start times of consecutive jobs differ by at least S. -/
theorem batch_stagger_assignment (options : MainOpts) (lines : List String)
    (trips : List (String × String × String))
    (hb : options.batch = true)
    (hp : parse_chrom_lines lines = .ok trips)
    (hnd : (trips.map Prod.fst).Nodup) :
    ∃ js, make_batch_align_jobs options lines = .ok js ∧
      js.length = trips.length ∧
      (∀ n (h : n < js.length),
        (js.get ⟨n, h⟩).2.stagger = n * options.stagger ∧
        align_job_body_actions (js.get ⟨n, h⟩).2 =
          AlignAction.sleep (n * options.stagger) :: [AlignAction.spawnWork]) ∧
      (∀ n (h : n + 1 < js.length),
        (js.get ⟨n + 1, h⟩).2.stagger =
          (js.get ⟨n, Nat.lt_of_succ_lt h⟩).2.stagger + options.stagger) ∧
      (∀ dispatch n (h : n + 1 < js.length),
        options.stagger ≤
          (dispatch + (js.get ⟨n + 1, h⟩).2.stagger) -
            (dispatch + (js.get ⟨n, Nat.lt_of_succ_lt h⟩).2.stagger)) := by
  refine ⟨stagger_jobs options 0 trips,
    make_batch_align_jobs_ok options lines trips hb hp hnd,
    stagger_jobs_length options 0 trips, ?_, ?_, ?_⟩
  · intro n h
    have h' : n < trips.length := by rwa [stagger_jobs_length] at h
    rw [stagger_jobs_get options 0 trips n h h']
    exact ⟨by simp [mkChromOptions],
      by simp [mkChromOptions, align_job_body_actions, run_cactus_align_actions]⟩
  · intro n h
    have h1 : n + 1 < trips.length := by rwa [stagger_jobs_length] at h
    rw [stagger_jobs_get options 0 trips (n + 1) h h1,
      stagger_jobs_get options 0 trips n (Nat.lt_of_succ_lt h) (Nat.lt_of_succ_lt h1)]
    simp [mkChromOptions, Nat.succ_mul]
  · intro dispatch n h
    have h1 : n + 1 < trips.length := by rwa [stagger_jobs_length] at h
    rw [stagger_jobs_get options 0 trips (n + 1) h h1,
      stagger_jobs_get options 0 trips n (Nat.lt_of_succ_lt h) (Nat.lt_of_succ_lt h1)]
    simp only [mkChromOptions, Nat.succ_mul]
    omega

theorem batch_stagger_assignment_witness :
    ∃ js, make_batch_align_jobs
        { outHal := "out", jobStore := "./js", batch := true,
          outVG := false, outGFA := false, pangenome := false,
          pafInput := false, usePafSecondaries := false,
          nonCactusInput := false, stagger := 60, seqFile := "chromfile.txt",
          cigarsFile := [], checkpointInfo := none, eventNameAsID := false }
        ["chr1 s1 a1", "", "chr2 s2 a2"] = .ok js ∧
      js.length = 2 ∧
      (∀ n (h : n < js.length),
        (js.get ⟨n, h⟩).2.stagger = n * 60 ∧
        align_job_body_actions (js.get ⟨n, h⟩).2 =
          AlignAction.sleep (n * 60) :: [AlignAction.spawnWork]) ∧
      (∀ n (h : n + 1 < js.length),
        (js.get ⟨n + 1, h⟩).2.stagger =
          (js.get ⟨n, Nat.lt_of_succ_lt h⟩).2.stagger + 60) := by
  obtain ⟨js, h1, h2, h3, h4, -⟩ := batch_stagger_assignment
    { outHal := "out", jobStore := "./js", batch := true,
      outVG := false, outGFA := false, pangenome := false,
      pafInput := false, usePafSecondaries := false,
      nonCactusInput := false, stagger := 60, seqFile := "chromfile.txt",
      cigarsFile := [], checkpointInfo := none, eventNameAsID := false }
    ["chr1 s1 a1", "", "chr2 s2 a2"]
    [("chr1", "s1", "a1"), ("chr2", "s2", "a2")]
    rfl (by decide) (by decide)
  exact ⟨js, h1, by simpa using h2, h3, h4⟩

/-- C9: each per-chromosome batch job is built from an independent copy of
the options determined only by the parent options, its own chrom-file line
and its index: batch flag cleared, own seqfile, cigars file, stagger delay
and checkpoint path, all other fields copied; and a batch invocation never
recursively spawns another batch (a job's options fed back into
`make_batch_align_jobs` produce a single non-batch entry). -/
theorem batch_branch_isolation (options : MainOpts) (lines : List String)
    (trips : List (String × String × String))
    (hb : options.batch = true)
    (hp : parse_chrom_lines lines = .ok trips)
    (hnd : (trips.map Prod.fst).Nodup) :
    ∃ js, make_batch_align_jobs options lines = .ok js ∧
      (∀ n (h : n < js.length) (h' : n < trips.length),
        js.get ⟨n, h⟩ =
          (some (trips.get ⟨n, h'⟩).1,
            mkChromOptions options (n * options.stagger)
              (trips.get ⟨n, h'⟩).1 (trips.get ⟨n, h'⟩).2.1 (trips.get ⟨n, h'⟩).2.2)) ∧
      (∀ n (h : n < js.length),
        ((js.get ⟨n, h⟩).2.batch = false ∧
         (js.get ⟨n, h⟩).2.outHal = options.outHal ∧
         (js.get ⟨n, h⟩).2.jobStore = options.jobStore ∧
         (js.get ⟨n, h⟩).2.outVG = options.outVG ∧
         (js.get ⟨n, h⟩).2.outGFA = options.outGFA ∧
         (js.get ⟨n, h⟩).2.pangenome = options.pangenome ∧
         (js.get ⟨n, h⟩).2.pafInput = options.pafInput ∧
         (js.get ⟨n, h⟩).2.eventNameAsID = options.eventNameAsID) ∧
        (∀ (h' : n < trips.length),
          (js.get ⟨n, h⟩).2.seqFile = (trips.get ⟨n, h'⟩).2.1 ∧
          (js.get ⟨n, h⟩).2.cigarsFile = [(trips.get ⟨n, h'⟩).2.2] ∧
          (js.get ⟨n, h⟩).2.checkpointInfo =
            chrom_checkpoint options.checkpointInfo (trips.get ⟨n, h'⟩).1)) ∧
      (∀ n (h : n < js.length) (lines' : List String),
        make_batch_align_jobs (js.get ⟨n, h⟩).2 lines' =
          .ok [(none, (js.get ⟨n, h⟩).2)]) := by
  refine ⟨stagger_jobs options 0 trips,
    make_batch_align_jobs_ok options lines trips hb hp hnd, ?_, ?_, ?_⟩
  · intro n h h'
    simpa using stagger_jobs_get options 0 trips n h h'
  · intro n h
    have h' : n < trips.length := by rwa [stagger_jobs_length] at h
    rw [stagger_jobs_get options 0 trips n h h']
    exact ⟨⟨rfl, rfl, rfl, rfl, rfl, rfl, rfl, rfl⟩, fun _ => ⟨rfl, rfl, rfl⟩⟩
  · intro n h lines'
    have h' : n < trips.length := by rwa [stagger_jobs_length] at h
    rw [stagger_jobs_get options 0 trips n h h']
    unfold make_batch_align_jobs
    rfl

theorem batch_branch_isolation_witness :
    ∃ js, make_batch_align_jobs
        { outHal := "s3://b/out", jobStore := "aws:usw:js", batch := true,
          outVG := true, outGFA := false, pangenome := true,
          pafInput := true, usePafSecondaries := false,
          nonCactusInput := false, stagger := 30, seqFile := "chromfile.txt",
          cigarsFile := [], checkpointInfo := some ("usw", "s3://b/out"),
          eventNameAsID := true }
        ["chr1 s1 a1", "chr2 s2 a2"] = .ok js ∧
      (∀ n (h : n < js.length),
        (js.get ⟨n, h⟩).2.batch = false) ∧
      (∀ n (h : n < js.length) (lines' : List String),
        make_batch_align_jobs (js.get ⟨n, h⟩).2 lines' =
          .ok [(none, (js.get ⟨n, h⟩).2)]) := by
  obtain ⟨js, h1, -, h3, h4⟩ := batch_branch_isolation
    { outHal := "s3://b/out", jobStore := "aws:usw:js", batch := true,
      outVG := true, outGFA := false, pangenome := true,
      pafInput := true, usePafSecondaries := false,
      nonCactusInput := false, stagger := 30, seqFile := "chromfile.txt",
      cigarsFile := [], checkpointInfo := some ("usw", "s3://b/out"),
      eventNameAsID := true }
    ["chr1 s1 a1", "chr2 s2 a2"]
    [("chr1", "s1", "a1"), ("chr2", "s2", "a2")]
    rfl (by decide) (by decide)
  exact ⟨js, h1, fun n h => (h3 n h).1.1, h4⟩

theorem dlookup_eq_of_mem_of_nodup (d : Dict κ V) (k : κ) (v : V)
    (h : (k, v) ∈ d) (hnd : (dkeys d).Nodup) : dlookup k d = some v := by
  induction d with
  | nil => simp at h
  | cons p rest ih =>
    rcases List.mem_cons.mp h with h | h
    · rw [← h]
      simp [dlookup_cons]
    · have hk : k ≠ p.1 := by
        intro hk
        have hmem : k ∈ dkeys rest := List.mem_map_of_mem Prod.fst h
        rw [hk] at hmem
        exact (List.nodup_cons.mp hnd).1 hmem
      simp only [dlookup_cons, if_neg hk]
      exact ih h (List.nodup_cons.mp hnd).2

theorem split_fa_into_contigs_ok_keys (event : String) (fa_id : BlobId)
    (cid : Nat) (reads : BlobId → List String) (write : String → BlobId)
    (m : Dict String Entry) (d : Dict String BlobId)
    (h : split_fa_into_contigs event fa_id cid reads write m = .ok d) :
    dkeys d = dkeys m := by
  induction m generalizing d with
  | nil =>
    simp only [split_fa_into_contigs, Except.ok.injEq] at h
    rw [← h]; rfl
  | cons p rest ih =>
    obtain ⟨rc, entry⟩ := p
    simp only [split_fa_into_contigs] at h
    rcases h1 : split_fa_one event fa_id cid reads write rc entry with e | v <;>
      rw [h1] at h
    · exact absurd h (by simp)
    · rcases h2 : split_fa_into_contigs event fa_id cid reads write rest with e | d' <;>
        rw [h2] at h
      · exact absurd h (by simp)
      · simp only [Except.ok.injEq] at h
        rw [← h]
        simp [ih d' h2]

theorem split_fa_into_contigs_sentinel (fa_id : BlobId) (cid : Nat)
    (reads : BlobId → List String) (write : String → BlobId)
    (m : Dict String Entry)
    (hwf : ∀ p ∈ m, ∃ lid, dlookup "fa_contigs" p.2 = some (TVal.blob lid)) :
    ∃ d, split_fa_into_contigs "__MINIGRAPH_SEQUENCES__" fa_id cid reads write m
        = .ok d ∧
      dkeys d = dkeys m ∧
      (∀ p ∈ m, ∀ lid, dlookup "fa_contigs" p.2 = some (TVal.blob lid) →
        ((matching_contigs (unique_id cid) (reads lid)).length = 0 →
          (p.1, fa_id) ∈ d) ∧
        ((matching_contigs (unique_id cid) (reads lid)).length ≠ 0 →
          (p.1, write ("__MINIGRAPH_SEQUENCES__" ++ "_" ++ p.1 ++ ".fa")) ∈ d)) := by
  induction m with
  | nil => exact ⟨[], rfl, rfl, by simp⟩
  | cons p rest ih =>
    obtain ⟨rc, entry⟩ := p
    obtain ⟨lid, hlid⟩ := hwf (rc, entry) (by simp)
    obtain ⟨d', hd', hkeys', hmem'⟩ := ih (fun q hq => hwf q (by simp [hq]))
    by_cases hz : (matching_contigs (unique_id cid) (reads lid)).length = 0
    · refine ⟨(rc, fa_id) :: d', ?_, by simp [hkeys'], ?_⟩
      · simp [split_fa_into_contigs, split_fa_one, hlid, hz, hd']
      · intro q hq lid' hlid'
        rcases List.mem_cons.mp hq with hq | hq
        · subst hq
          simp only at hlid'
          rw [hlid'] at hlid
          cases hlid
          refine ⟨fun _ => List.mem_cons_self _ _, fun hnz => absurd hz hnz⟩
        · have := hmem' q hq lid' hlid'
          exact ⟨fun h0 => List.mem_cons_of_mem _ (this.1 h0),
                 fun hnz => List.mem_cons_of_mem _ (this.2 hnz)⟩
    · have hpos : (matching_contigs (unique_id cid) (reads lid)).length > 0 :=
        Nat.pos_of_ne_zero hz
      refine ⟨(rc, write ("__MINIGRAPH_SEQUENCES__" ++ "_" ++ rc ++ ".fa")) :: d',
        ?_, by simp [hkeys'], ?_⟩
      · simp [split_fa_into_contigs, split_fa_one, hlid, hpos, hd']
      · intro q hq lid' hlid'
        rcases List.mem_cons.mp hq with hq | hq
        · subst hq
          simp only at hlid'
          rw [hlid'] at hlid
          cases hlid
          refine ⟨fun h0 => absurd h0 hz, fun _ => List.mem_cons_self _ _⟩
        · have := hmem' q hq lid' hlid'
          exact ⟨fun h0 => List.mem_cons_of_mem _ (this.1 h0),
                 fun hnz => List.mem_cons_of_mem _ (this.2 hnz)⟩

theorem split_fa_into_contigs_missing (event : String) (fa_id : BlobId)
    (cid : Nat) (reads : BlobId → List String) (write : String → BlobId)
    (m : Dict String Entry)
    (hne : event ≠ "__MINIGRAPH_SEQUENCES__")
    (hwf : ∀ p ∈ m, ∃ lid, dlookup "fa_contigs" p.2 = some (TVal.blob lid))
    (hex : ∃ p ∈ m, ∃ lid, dlookup "fa_contigs" p.2 = some (TVal.blob lid) ∧
      (matching_contigs (unique_id cid) (reads lid)).length = 0) :
    split_fa_into_contigs event fa_id cid reads write m = .error .missingKey := by
  induction m with
  | nil => simp at hex
  | cons p rest ih =>
    obtain ⟨rc, entry⟩ := p
    obtain ⟨lid, hlid⟩ := hwf (rc, entry) (by simp)
    by_cases hz : (matching_contigs (unique_id cid) (reads lid)).length = 0
    · simp only [split_fa_into_contigs, split_fa_one, hlid]
      rw [if_neg (by omega), if_neg hne]
    · have hex' : ∃ p ∈ rest, ∃ lid,
          dlookup "fa_contigs" p.2 = some (TVal.blob lid) ∧
          (matching_contigs (unique_id cid) (reads lid)).length = 0 := by
        obtain ⟨q, hq, lid', hlid', hz'⟩ := hex
        rcases List.mem_cons.mp hq with hq | hq
        · rw [hq] at hlid'
          simp only at hlid'
          rw [hlid'] at hlid
          cases hlid
          exact absurd hz' hz
        · exact ⟨q, hq, lid', hlid', hz'⟩
      have := ih (fun q hq => hwf q (by simp [hq])) hex'
      simp only [split_fa_into_contigs, split_fa_one, hlid]
      rw [if_pos (by omega), this]

/-- C2: in `split_fa_into_contigs`, a genome with zero contigs matching some
reference contig has the whole-genome fasta id carried through precisely when
the genome is the `__MINIGRAPH_SEQUENCES__` no-data sentinel; any other
genome with a zero-match reference contig raises (the spec's
`MissingKeyError`) instead of silently substituting the fallback. -/
theorem no_data_fallback (event : String) (fa_id : BlobId) (cid : Nat)
    (reads : BlobId → List String) (write : String → BlobId)
    (split_id_map : Dict String Entry)
    (hnd : (dkeys split_id_map).Nodup)
    (hwf : ∀ p ∈ split_id_map, ∃ lid,
      dlookup "fa_contigs" p.2 = some (TVal.blob lid)) :
    (event = "__MINIGRAPH_SEQUENCES__" →
      ∃ d, split_fa_into_contigs event fa_id cid reads write split_id_map
          = .ok d ∧
        ∀ p ∈ split_id_map, ∀ lid,
          dlookup "fa_contigs" p.2 = some (TVal.blob lid) →
          (matching_contigs (unique_id cid) (reads lid)).length = 0 →
          dlookup p.1 d = some fa_id) ∧
    (event ≠ "__MINIGRAPH_SEQUENCES__" →
      (∃ p ∈ split_id_map, ∃ lid,
        dlookup "fa_contigs" p.2 = some (TVal.blob lid) ∧
        (matching_contigs (unique_id cid) (reads lid)).length = 0) →
      split_fa_into_contigs event fa_id cid reads write split_id_map
        = .error .missingKey) := by
  constructor
  · intro hev
    subst hev
    obtain ⟨d, hd, hkeys, hmem⟩ :=
      split_fa_into_contigs_sentinel fa_id cid reads write split_id_map hwf
    refine ⟨d, hd, ?_⟩
    intro p hp lid hlid hz
    have hdnd : (dkeys d).Nodup := hkeys ▸ hnd
    exact dlookup_eq_of_mem_of_nodup d p.1 fa_id ((hmem p hp lid hlid).1 hz) hdnd
  · intro hne hex
    exact split_fa_into_contigs_missing event fa_id cid reads write
      split_id_map hne hwf hex

theorem no_data_fallback_witness :
    (∃ d, split_fa_into_contigs "__MINIGRAPH_SEQUENCES__" 7 1
        (fun _ => ["id=0|ctgA"]) (fun s => s.length)
        [("chr1", [("fa_contigs", TVal.blob 3)])] = .ok d ∧
      dlookup "chr1" d = some 7) ∧
    split_fa_into_contigs "HG02" 7 1
      (fun _ => ["id=0|ctgA"]) (fun s => s.length)
      [("chr1", [("fa_contigs", TVal.blob 3)])] = .error .missingKey := by
  constructor
  · obtain ⟨d, hd, hfall⟩ := (no_data_fallback "__MINIGRAPH_SEQUENCES__" 7 1
      (fun _ => ["id=0|ctgA"]) (fun s => s.length)
      [("chr1", [("fa_contigs", TVal.blob 3)])]
      (by decide) (by intro p hp; simp at hp; subst hp; exact ⟨3, rfl⟩)).1 rfl
    exact ⟨d, hd, hfall ("chr1", [("fa_contigs", TVal.blob 3)])
      (by simp) 3 rfl (by decide)⟩
  · exact (no_data_fallback "HG02" 7 1
      (fun _ => ["id=0|ctgA"]) (fun s => s.length)
      [("chr1", [("fa_contigs", TVal.blob 3)])]
      (by decide) (by intro p hp; simp at hp; subst hp; exact ⟨3, rfl⟩)).2
      (by decide)
      ⟨("chr1", [("fa_contigs", TVal.blob 3)]), by simp, 3, rfl, by decide⟩

theorem split_fas_go_ok (seq0 : Dict String (String × BlobId))
    (m : Dict String Entry) (reads : BlobId → List String)
    (write : String → BlobId) (l : Dict String (String × BlobId))
    (cm : Dict String (Dict String BlobId))
    (h : split_fas.go seq0 m reads write l = .ok cm) :
    dkeys cm = dkeys l ∧ ∀ p ∈ cm, dkeys p.2 = dkeys m := by
  induction l generalizing cm with
  | nil =>
    simp only [split_fas.go, Except.ok.injEq] at h
    rw [← h]
    exact ⟨rfl, by simp⟩
  | cons p rest ih =>
    obtain ⟨event, pr⟩ := p
    simp only [split_fas.go] at h
    rcases h1 : split_fa_into_contigs event pr.2 (cactus_id_of (dkeys seq0) event)
        reads write m with e | d <;> rw [h1] at h
    · exact absurd h (by simp)
    · rcases h2 : split_fas.go seq0 m reads write rest with e | cm' <;> rw [h2] at h
      · exact absurd h (by simp)
      · simp only [Except.ok.injEq] at h
        rw [← h]
        obtain ⟨hk, hall⟩ := ih cm' h2
        refine ⟨by simp [hk], ?_⟩
        intro q hq
        rcases List.mem_cons.mp hq with hq | hq
        · subst hq
          exact split_fa_into_contigs_ok_keys event pr.2 _ reads write m d h1
        · exact hall q hq

theorem split_fas_ok (seq : Dict String (String × BlobId))
    (m : Dict String Entry) (reads : BlobId → List String)
    (write : String → BlobId) (cm : Dict String (Dict String BlobId))
    (h : split_fas seq m reads write = .ok cm) :
    dkeys cm = dkeys seq ∧ ∀ p ∈ cm, dkeys p.2 = dkeys m :=
  split_fas_go_ok seq m reads write seq cm h

theorem gather_inner_ok (rc : String) (cm : Dict String (Dict String BlobId))
    (h : ∀ p ∈ cm, rc ∈ dkeys p.2) :
    ∃ fa, gather_inner rc cm = .ok fa ∧ dkeys fa = dkeys cm := by
  induction cm with
  | nil => exact ⟨[], rfl, rfl⟩
  | cons p rest ih =>
    obtain ⟨event, fad⟩ := p
    have hsome : (dlookup rc fad).isSome = true :=
      (dlookup_isSome_iff_mem_dkeys rc fad).mpr (h (event, fad) (by simp))
    obtain ⟨id, hid⟩ := Option.isSome_iff_exists.mp hsome
    obtain ⟨fa', hfa', hk'⟩ := ih (fun q hq => h q (by simp [hq]))
    refine ⟨(event, id) :: fa', ?_, by simp [hk']⟩
    simp only [gather_inner, hid, hfa']

theorem gather_fas_ok (seq : Dict String (String × BlobId))
    (cm : Dict String (Dict String BlobId)) (m : Dict String Entry)
    (hin : ∀ p ∈ m, ∀ q ∈ cm, p.1 ∈ dkeys q.2) :
    ∃ t, gather_fas seq m cm = .ok t ∧
      dkeys t = dkeys m ∧
      ∀ p ∈ t, ∃ entry fa, (p.1, entry) ∈ m ∧
        p.2 = dinsert "fa" (TVal.sub fa) entry ∧ dkeys fa = dkeys cm := by
  induction m with
  | nil => exact ⟨[], rfl, rfl, by simp⟩
  | cons p rest ih =>
    obtain ⟨rc, entry⟩ := p
    obtain ⟨fa, hfa, hfk⟩ := gather_inner_ok rc cm
      (fun q hq => hin (rc, entry) (by simp) q hq)
    obtain ⟨t', ht', htk, hprops⟩ := ih (fun q hq r hr => hin q (by simp [hq]) r hr)
    refine ⟨(rc, dinsert "fa" (TVal.sub fa) entry) :: t', ?_, by simp [htk], ?_⟩
    · simp only [gather_fas, hfa, ht']
    · intro q hq
      rcases List.mem_cons.mp hq with hq | hq
      · subst hq
        exact ⟨entry, fa, by simp, rfl, hfk⟩
      · obtain ⟨entry', fa', h1, h2, h3⟩ := hprops q hq
        exact ⟨entry', fa', by simp [h1], h2, h3⟩

/-- C1: with the per-genome fasta splitting having succeeded on the table
discovered by the split stage, `gather_fas` returns a table with exactly the
split stage's keys (no key dropped or duplicated between fan-out and
gather), and each key's value keeps its `gfa` and `paf` blob references and
gains a `fa` sub-mapping with exactly one entry per source genome of the
sequence-id map. -/
theorem fan_out_gather_complete (seq : Dict String (String × BlobId))
    (m : Dict String Entry) (cm : Dict String (Dict String BlobId))
    (reads : BlobId → List String) (write : String → BlobId)
    (hsplit : split_fas seq m reads write = .ok cm)
    (hgfa : ∀ p ∈ m, (∃ g, dlookup "gfa" p.2 = some (TVal.blob g)) ∧
      (∃ q, dlookup "paf" p.2 = some (TVal.blob q))) :
    ∃ t, gather_fas seq m cm = .ok t ∧
      dkeys t = dkeys m ∧
      ((dkeys m).Nodup → (dkeys t).Nodup) ∧
      ∀ p ∈ t, (∃ g, dlookup "gfa" p.2 = some (TVal.blob g)) ∧
        (∃ q, dlookup "paf" p.2 = some (TVal.blob q)) ∧
        ∃ fa, dlookup "fa" p.2 = some (TVal.sub fa) ∧ dkeys fa = dkeys seq := by
  obtain ⟨hck, hall⟩ := split_fas_ok seq m reads write cm hsplit
  obtain ⟨t, ht, htk, hprops⟩ := gather_fas_ok seq cm m
    (fun p hp q hq => by
      rw [hall q hq]
      exact List.mem_map_of_mem Prod.fst hp)
  refine ⟨t, ht, htk, fun hnd => htk ▸ hnd, ?_⟩
  intro p hp
  obtain ⟨entry, fa, hmem, hval, hfk⟩ := hprops p hp
  have hgp := hgfa (p.1, entry) hmem
  refine ⟨?_, ?_, fa, ?_, by rw [hfk, hck]⟩
  · obtain ⟨g, hg⟩ := hgp.1
    exact ⟨g, by rw [hval, dlookup_dinsert_ne _ _ _ _ (by decide)]; exact hg⟩
  · obtain ⟨q, hq⟩ := hgp.2
    exact ⟨q, by rw [hval, dlookup_dinsert_ne _ _ _ _ (by decide)]; exact hq⟩
  · rw [hval, dlookup_dinsert_self]

theorem fan_out_gather_complete_witness :
    ∃ t, gather_fas
        [("A", ("A.fa", 1)), ("__MINIGRAPH_SEQUENCES__", ("mg.fa", 2))]
        [("chr1", [("gfa", TVal.blob 10), ("paf", TVal.blob 11),
          ("fa_contigs", TVal.blob 12)])]
        [("A", [("chr1", 9)]), ("__MINIGRAPH_SEQUENCES__", [("chr1", 2)])]
        = .ok t ∧
      dkeys t = ["chr1"] ∧
      ∀ p ∈ t, (∃ g, dlookup "gfa" p.2 = some (TVal.blob g)) ∧
        (∃ q, dlookup "paf" p.2 = some (TVal.blob q)) ∧
        ∃ fa, dlookup "fa" p.2 = some (TVal.sub fa) ∧
          dkeys fa = ["A", "__MINIGRAPH_SEQUENCES__"] := by
  obtain ⟨t, ht, htk, -, hprops⟩ := fan_out_gather_complete
    [("A", ("A.fa", 1)), ("__MINIGRAPH_SEQUENCES__", ("mg.fa", 2))]
    [("chr1", [("gfa", TVal.blob 10), ("paf", TVal.blob 11),
      ("fa_contigs", TVal.blob 12)])]
    [("A", [("chr1", 9)]), ("__MINIGRAPH_SEQUENCES__", [("chr1", 2)])]
    (fun _ => ["id=0|ctgA"]) (fun s => s.length)
    (by decide)
    (by intro p hp; simp at hp; subst hp; exact ⟨⟨10, rfl⟩, ⟨11, rfl⟩⟩)
  exact ⟨t, ht, htk, hprops⟩

/-- C7: on a gathered table whose entries are well-formed, the exported
`chromfile.txt` has exactly one `<key>, <URL>` line per top-level key, and
each key owns a seqfile sub-manifest with exactly one `<genome>, <path>`
line per source genome of that key's `fa` sub-mapping. -/
theorem manifest_shape (makeURL : String → String) (dir : String)
    (t : Dict String Entry)
    (hwf : ∀ p ∈ t, (∃ g, dlookup "gfa" p.2 = some (TVal.blob g)) ∧
      (∃ q, dlookup "paf" p.2 = some (TVal.blob q)) ∧
      (∃ fa, dlookup "fa" p.2 = some (TVal.sub fa))) :
    ∃ out, export_split_data makeURL dir t = .ok out ∧
      out.chromLines.map Prod.fst = dkeys t ∧
      dkeys out.seqfiles = dkeys t ∧
      ∀ p ∈ t, ∀ fa, dlookup "fa" p.2 = some (TVal.sub fa) →
        ∃ ls, (p.1, ls) ∈ out.seqfiles ∧ ls.map Prod.fst = dkeys fa := by
  induction t with
  | nil => exact ⟨⟨[], [], []⟩, rfl, rfl, rfl, by simp⟩
  | cons p rest ih =>
    obtain ⟨rc, entry⟩ := p
    obtain ⟨⟨g, hg⟩, ⟨q, hq⟩, ⟨fa, hfa⟩⟩ := hwf (rc, entry) (by simp)
    obtain ⟨out, hout, hch, hsk, hsl⟩ := ih (fun p hp => hwf p (by simp [hp]))
    refine ⟨⟨(rc, makeURL (makeURL (pyJoin (pyJoin dir rc) (rc ++ ".seqfile"))))
        :: out.chromLines,
      (rc, fa.map (fun p => (p.1,
        makeURL (pyJoin (pyJoin (pyJoin dir rc) "fasta")
          (p.1 ++ "_" ++ rc ++ ".fa"))))) :: out.seqfiles,
      ((g, makeURL (pyJoin (pyJoin dir rc) (rc ++ ".gfa"))) ::
       (q, makeURL (pyJoin (pyJoin dir rc) (rc ++ ".paf"))) ::
       fa.map (fun p => (p.2,
         makeURL (pyJoin (pyJoin (pyJoin dir rc) "fasta")
           (p.1 ++ "_" ++ rc ++ ".fa"))))) ++ out.exports⟩,
      ?_, by simp [hch], by simp [hsk], ?_⟩
    · simp only [export_split_data, export_one, hg, hq, hfa, hout]
    · intro p hp fa' hfa'
      rcases List.mem_cons.mp hp with hp | hp
      · subst hp
        simp only at hfa'
        rw [hfa'] at hfa
        cases hfa
        refine ⟨_, List.mem_cons_self _ _, ?_⟩
        simp [dkeys]
      · obtain ⟨ls, hls, hlk⟩ := hsl p hp fa' hfa'
        exact ⟨ls, List.mem_cons_of_mem _ hls, hlk⟩

theorem manifest_shape_witness :
    ∃ out, export_split_data (fun s => s) "outdir"
        [("chr1", [("gfa", TVal.blob 10), ("paf", TVal.blob 11),
          ("fa", TVal.sub [("A", 9), ("__MINIGRAPH_SEQUENCES__", 2)])]),
         ("chrX", [("gfa", TVal.blob 20), ("paf", TVal.blob 21),
          ("fa", TVal.sub [("A", 8), ("__MINIGRAPH_SEQUENCES__", 2)])])]
        = .ok out ∧
      out.chromLines.map Prod.fst = ["chr1", "chrX"] ∧
      dkeys out.seqfiles = ["chr1", "chrX"] ∧
      ∃ ls, ("chr1", ls) ∈ out.seqfiles ∧
        ls.map Prod.fst = ["A", "__MINIGRAPH_SEQUENCES__"] := by
  obtain ⟨out, hout, hch, hsk, hsl⟩ := manifest_shape (fun s => s) "outdir"
    [("chr1", [("gfa", TVal.blob 10), ("paf", TVal.blob 11),
      ("fa", TVal.sub [("A", 9), ("__MINIGRAPH_SEQUENCES__", 2)])]),
     ("chrX", [("gfa", TVal.blob 20), ("paf", TVal.blob 21),
      ("fa", TVal.sub [("A", 8), ("__MINIGRAPH_SEQUENCES__", 2)])])]
    (by intro p hp
        simp at hp
        rcases hp with hp | hp <;> subst hp <;>
          exact ⟨⟨_, rfl⟩, ⟨_, rfl⟩, ⟨_, rfl⟩⟩)
  obtain ⟨ls, hls, hlk⟩ := hsl
    ("chr1", [("gfa", TVal.blob 10), ("paf", TVal.blob 11),
      ("fa", TVal.sub [("A", 9), ("__MINIGRAPH_SEQUENCES__", 2)])])
    (by simp) [("A", 9), ("__MINIGRAPH_SEQUENCES__", 2)] rfl
  exact ⟨out, hout, hch, hsk, ls, hls, hlk⟩

/-- C5 memberships: the unzip children sit in the subtree of the workflow
root. -/
theorem unzipGfa_mem_subtree_root {n : Nat} (gzPaf : Bool) :
    (.unzipGfa : STask n) ∈ subtree true gzPaf .root := by
  refine List.mem_cons_of_mem _ (List.mem_flatMap.mpr ⟨.unzipGfa, ?_, ?_⟩)
  · simp [children]
  · simp [desc]

theorem unzipPaf_mem_subtree_root {n : Nat} (gzGfa : Bool) :
    (.unzipPaf : STask n) ∈ subtree gzGfa true .root := by
  refine List.mem_cons_of_mem _ (List.mem_flatMap.mpr ⟨.unzipPaf, ?_, ?_⟩)
  · simp [children]
  · simp [desc]

theorem splitFaChild_mem_subtree_splitFas {n : Nat} (gzGfa gzPaf : Bool)
    (i : Fin n) :
    (.splitFaChild i : STask n) ∈ subtree gzGfa gzPaf .splitFas := by
  refine List.mem_cons_of_mem _
    (List.mem_flatMap.mpr ⟨.splitFasRoot, by simp [children], ?_⟩)
  simp only [desc, succs, children, followOns, List.append_nil]
  refine List.mem_cons_of_mem _
    (List.mem_flatMap.mpr ⟨.splitFaChild i, ?_, by simp [desc]⟩)
  exact (List.mem_ofFn _ _).mpr ⟨i, rfl⟩

/-- C5: under the spec's scheduler contract, in the graphmap-split job graph
a follow-on never starts before every task of its predecessor's subtree has
finished: `split_gfa` starts only after the root's unzip children (when
present) and the root itself have finished, `split_fas` only after
`split_gfa`, and `gather_fas` only after `split_fas`, its inner root and
every per-genome `split_fa_into_contigs` child. -/
theorem followOn_ordering {n : Nat} (gzGfa gzPaf : Bool)
    (S : Schedule n gzGfa gzPaf) :
    (gzGfa = true → S.finish .unzipGfa ≤ S.start .splitGfa) ∧
    (gzPaf = true → S.finish .unzipPaf ≤ S.start .splitGfa) ∧
    S.finish .root ≤ S.start .splitGfa ∧
    S.finish .splitGfa ≤ S.start .splitFas ∧
    S.finish .splitFas ≤ S.start .gatherFas ∧
    S.finish .splitFasRoot ≤ S.start .gatherFas ∧
    (∀ i : Fin n, S.finish (.splitFaChild i) ≤ S.start .gatherFas) := by
  have hroot := fun t ht =>
    S.followOn_barrier .root .splitGfa (by simp [followOns]) t ht
  have hgfa := fun t ht =>
    S.followOn_barrier .splitGfa .splitFas (by simp [followOns]) t ht
  have hfas := fun t ht =>
    S.followOn_barrier .splitFas .gatherFas (by simp [followOns]) t ht
  refine ⟨?_, ?_, ?_, ?_, ?_, ?_, ?_⟩
  · intro hgz; subst hgz
    exact hroot _ (unzipGfa_mem_subtree_root gzPaf)
  · intro hgz; subst hgz
    exact hroot _ (unzipPaf_mem_subtree_root gzGfa)
  · exact hroot _ (by simp [subtree])
  · exact hgfa _ (by simp [subtree])
  · exact hfas _ (by simp [subtree])
  · exact hfas _ (by
      refine List.mem_cons_of_mem _
        (List.mem_flatMap.mpr ⟨.splitFasRoot, by simp [children], ?_⟩)
      simp [desc])
  · intro i
    exact hfas _ (splitFaChild_mem_subtree_splitFas gzGfa gzPaf i)

theorem followOn_ordering_witness :
    (schedOne.finish .unzipGfa ≤ schedOne.start .splitGfa) ∧
    (schedOne.finish .unzipPaf ≤ schedOne.start .splitGfa) ∧
    schedOne.finish .splitGfa ≤ schedOne.start .splitFas ∧
    schedOne.finish .splitFas ≤ schedOne.start .gatherFas ∧
    (∀ i : Fin 1, schedOne.finish (.splitFaChild i) ≤ schedOne.start .gatherFas) := by
  obtain ⟨h1, h2, -, h4, h5, -, h7⟩ := followOn_ordering true true schedOne
  exact ⟨h1 rfl, h2 rfl, h4, h5, h7⟩

/-- C6 counterexample: in `make_align_job`, a failing import of an outgroup
fragment is caught and ignored rather than reported: with a store that has
no blob at `aln.paf.og_fragment_0`, the import phase still returns
successfully (with the outgroup id list silently emptied), and the failing
`.secondary` import is likewise ignored. -/
theorem import_failure_swallowed :
    (fun p => if p = "aln.paf" then some 5 else none : String → Option BlobId)
        "aln.paf.og_fragment_0" = none ∧
    make_align_imports
      (fun p => if p = "aln.paf" then some 5 else none)
      ["aln.paf"] false false ["og1"] ["L1"] =
      .ok ⟨⟨[], false, []⟩, 5, none, []⟩ := by
  exact ⟨by decide, by decide⟩

/-- C6 amended: at the import phase of `make_align_job`, besides the no-data
fallback of the fan-out stage two further failures are deliberately
swallowed: a failing outgroup-fragment import empties the outgroup id list
and breaks the loop (the input is then treated as not coming from
cactus-blast), and a failing `.secondary` import leaves the secondary
alignments absent; the unguarded imports, such as the primary alignments
file, still propagate their failure to the caller. -/
theorem failure_propagation_amended :
    (∀ (store : String → Option BlobId) (cigars : List String)
       (pangen : Bool) (i : Nat) (og : String) (rest : List (Nat × String))
       (st : OutgroupImports) (p : String),
       get_input_path cigars (".og_fragment_" ++ toString i) = .ok p →
       store p = none →
       import_outgroups store cigars pangen ((i, og) :: rest) st =
         { st with outgroupIDs := [] }) ∧
    (∀ (store : String → Option BlobId) (cigars : List String)
       (pangen : Bool) (leaves : List String) (p : String),
       get_input_path cigars "" = .ok p → store p = none →
       make_align_imports store cigars pangen false [] leaves =
         .error .importError) ∧
    (∀ (store : String → Option BlobId) (cigars : List String)
       (leaves : List String) (p ps : String) (i : BlobId),
       get_input_path cigars "" = .ok p → store p = some i →
       get_input_path cigars ".secondary" = .ok ps → store ps = none →
       make_align_imports store cigars false false [] leaves =
         .ok ⟨⟨[], false, []⟩, i, none, []⟩) := by
  refine ⟨?_, ?_, ?_⟩
  · intro store cigars pangen i og rest st p hp hstore
    simp only [import_outgroups, hp, hstore]
  · intro store cigars pangen leaves p hp hstore
    simp only [make_align_imports, import_outgroups, List.enum, hp, hstore]
  · intro store cigars leaves p ps i hp hstore hps hpss
    simp only [make_align_imports, import_outgroups, List.enum,
      hp, hstore, hps, hpss]
    rfl

theorem failure_propagation_amended_witness :
    import_outgroups (fun _ => none) ["aln.paf"] false [(0, "og1")]
        ⟨[], false, []⟩ = ⟨[], false, []⟩ ∧
    make_align_imports (fun _ => none) ["aln.paf"] false false [] [] =
      .error .importError ∧
    make_align_imports (fun p => if p = "aln.paf" then some 5 else none)
      ["aln.paf"] false false [] [] = .ok ⟨⟨[], false, []⟩, 5, none, []⟩ := by
  refine ⟨?_, ?_, ?_⟩
  · exact failure_propagation_amended.1 (fun _ => none) ["aln.paf"] false
      0 "og1" [] ⟨[], false, []⟩ "aln.paf.og_fragment_0" (by decide) rfl
  · exact failure_propagation_amended.2.1 (fun _ => none) ["aln.paf"] false
      [] "aln.paf" (by decide) rfl
  · exact failure_propagation_amended.2.2
      (fun p => if p = "aln.paf" then some 5 else none) ["aln.paf"]
      [] "aln.paf" "aln.paf.secondary" 5 (by decide) (by decide)
      (by decide) (by decide)

theorem stagger_jobs_mem (o : MainOpts) (d : Nat)
    (trips : List (String × String × String)) :
    ∀ p ∈ stagger_jobs o d trips, ∃ c s a δ, (c, s, a) ∈ trips ∧
      p = (some c, mkChromOptions o δ c s a) := by
  induction trips generalizing d with
  | nil => simp [stagger_jobs]
  | cons t rest ih =>
    obtain ⟨c, s, a⟩ := t
    intro p hp
    rcases List.mem_cons.mp hp with hp | hp
    · exact ⟨c, s, a, d, by simp, hp⟩
    · obtain ⟨c', s', a', δ', hmem, hval⟩ := ih (d + o.stagger) p hp
      exact ⟨c', s', a', δ', by simp [hmem], hval⟩

theorem chrom_job_writes_s3 (cfg : Hal2VgConfig) (o : MainOpts)
    (hal : BlobRef) (write : String → BlobId) (r path : String)
    (hcp : o.checkpointInfo = some (r, path)) :
    (path, r) ∈ chrom_job_writes cfg o hal write ∧
    ((o.outVG = true ∨ o.outGFA = true) →
      ((pySplitext path).1 ++ ".vg", r) ∈ chrom_job_writes cfg o hal write) ∧
    (o.outGFA = true →
      ((pySplitext path).1 ++ ".gfa.gz", r) ∈ chrom_job_writes cfg o hal write) := by
  refine ⟨?_, ?_, ?_⟩
  · simp [chrom_job_writes, exportHal_writes, hcp]
  · intro hdo
    simp [chrom_job_writes, hcp, export_vg_writes, export_vg,
      exportHal_writes, hdo]
  · intro hgfa
    simp [chrom_job_writes, hcp, export_vg_writes, export_vg,
      exportHal_writes, hgfa]

theorem chrom_job_writes_local (cfg : Hal2VgConfig) (o : MainOpts)
    (hal : BlobRef) (write : String → BlobId)
    (hcp : o.checkpointInfo = none) :
    chrom_job_writes cfg o hal write = [] := by
  by_cases hdo : o.outVG = true ∨ o.outGFA = true
  · simp only [chrom_job_writes, exportHal_writes, hcp, if_pos hdo,
      export_vg_writes, export_vg]
    simp
  · simp [chrom_job_writes, exportHal_writes, hcp, if_neg hdo]

theorem export_triple_ok (makeURL : String → String) (opts : MainOpts)
    (chrom : String) (r : BlobId × Option BlobId × Option BlobId)
    (hv : opts.outVG = true → r.2.1.isSome)
    (hg : opts.outGFA = true → r.2.2.isSome) :
    ∃ es, export_triple makeURL opts chrom r = .ok es ∧
      (r.1, makeURL (pyJoin opts.outHal (chrom ++ ".hal"))) ∈ es ∧
      (∀ v, opts.outVG = true → r.2.1 = some v →
        (v, makeURL (pyJoin opts.outHal (chrom ++ ".vg"))) ∈ es) ∧
      (∀ gf, opts.outGFA = true → r.2.2 = some gf →
        (gf, makeURL (pyJoin opts.outHal (chrom ++ ".gfa.gz"))) ∈ es) := by
  by_cases hbv : opts.outVG = true <;> by_cases hbg : opts.outGFA = true
  · obtain ⟨v, hv1⟩ := Option.isSome_iff_exists.mp (hv hbv)
    obtain ⟨gf, hg1⟩ := Option.isSome_iff_exists.mp (hg hbg)
    refine ⟨[(r.1, makeURL (pyJoin opts.outHal (chrom ++ ".hal"))),
             (v, makeURL (pyJoin opts.outHal (chrom ++ ".vg"))),
             (gf, makeURL (pyJoin opts.outHal (chrom ++ ".gfa.gz")))],
      ?_, by simp, ?_, ?_⟩
    · simp [export_triple, hbv, hbg, hv1, hg1]
    · intro v' _ hv'
      rw [hv1] at hv'
      cases hv'
      simp
    · intro gf' _ hg'
      rw [hg1] at hg'
      cases hg'
      simp
  · obtain ⟨v, hv1⟩ := Option.isSome_iff_exists.mp (hv hbv)
    refine ⟨[(r.1, makeURL (pyJoin opts.outHal (chrom ++ ".hal"))),
             (v, makeURL (pyJoin opts.outHal (chrom ++ ".vg")))],
      ?_, by simp, ?_, ?_⟩
    · simp [export_triple, hbv, hbg, hv1]
    · intro v' _ hv'
      rw [hv1] at hv'
      cases hv'
      simp
    · intro gf' hgf _
      exact absurd hgf hbg
  · obtain ⟨gf, hg1⟩ := Option.isSome_iff_exists.mp (hg hbg)
    refine ⟨[(r.1, makeURL (pyJoin opts.outHal (chrom ++ ".hal"))),
             (gf, makeURL (pyJoin opts.outHal (chrom ++ ".gfa.gz")))],
      ?_, by simp, ?_, ?_⟩
    · simp [export_triple, hbv, hbg, hg1]
    · intro v' hv' _
      exact absurd hv' hbv
    · intro gf' _ hg'
      rw [hg1] at hg'
      cases hg'
      simp
  · refine ⟨[(r.1, makeURL (pyJoin opts.outHal (chrom ++ ".hal")))],
      ?_, by simp, ?_, ?_⟩
    · simp [export_triple, hbv, hbg]
    · intro v' hv' _
      exact absurd hv' hbv
    · intro gf' hgf _
      exact absurd hgf hbg

theorem batch_go_ok (makeURL : String → String) (opts : MainOpts)
    (results : Dict (Option String) (BlobId × Option BlobId × Option BlobId))
    (hwf : ∀ r ∈ results, (opts.outVG = true → r.2.2.1.isSome) ∧
      (opts.outGFA = true → r.2.2.2.isSome)) :
    ∃ es, main_post_run_exports.batch_go makeURL opts results = .ok es ∧
      ∀ r ∈ results,
        (r.2.1, makeURL (pyJoin opts.outHal (fmtKey r.1 ++ ".hal"))) ∈ es ∧
        (∀ v, opts.outVG = true → r.2.2.1 = some v →
          (v, makeURL (pyJoin opts.outHal (fmtKey r.1 ++ ".vg"))) ∈ es) ∧
        (∀ gf, opts.outGFA = true → r.2.2.2 = some gf →
          (gf, makeURL (pyJoin opts.outHal (fmtKey r.1 ++ ".gfa.gz"))) ∈ es) := by
  induction results with
  | nil => exact ⟨[], rfl, by simp⟩
  | cons q rest ih =>
    obtain ⟨k, rr⟩ := q
    obtain ⟨es0, hes0, hh, hhv, hhg⟩ := export_triple_ok makeURL opts (fmtKey k) rr
      ((hwf (k, rr) (by simp)).1) ((hwf (k, rr) (by simp)).2)
    obtain ⟨es1, hes1, hrest⟩ := ih (fun r hr => hwf r (by simp [hr]))
    refine ⟨es0 ++ es1, by simp only [main_post_run_exports.batch_go, hes0, hes1], ?_⟩
    intro r hr
    rcases List.mem_cons.mp hr with hr | hr
    · subst hr
      exact ⟨List.mem_append_left _ hh,
        fun v hv1 hv2 => List.mem_append_left _ (hhv v hv1 hv2),
        fun gf hg1 hg2 => List.mem_append_left _ (hhg gf hg1 hg2)⟩
    · obtain ⟨h1, h2, h3⟩ := hrest r hr
      exact ⟨List.mem_append_right _ h1,
        fun v hv1 hv2 => List.mem_append_right _ (h2 v hv1 hv2),
        fun gf hg1 hg2 => List.mem_append_right _ (h3 gf hg1 hg2)⟩

/-- C8: with an `s3://` output target, checkpoint info `(region, outHal)` is
computed and threaded to every per-chromosome job as
`(region, outHal/<chrom>.hal)`, each per-chromosome task body writes its hal
(via `exportHal`), its vg (when vg or gfa output is requested) and its gfa
(when requested) directly to the sink, and the post-run export step exports
nothing; with a local output target no checkpoint info exists, no
direct-sink write occurs, and every artifact is delivered through the
post-run export step. -/
theorem s3_direct_checkpointing (g : String → String) (opts : MainOpts)
    (lines : List String) (trips : List (String × String × String))
    (cfg : Hal2VgConfig) (hal : BlobRef) (write : String → BlobId)
    (makeURL : String → String)
    (results : Dict (Option String) (BlobId × Option BlobId × Option BlobId))
    (hb : opts.batch = true)
    (hchk : main_batch_check opts = Except.ok ())
    (hp : parse_chrom_lines lines = .ok trips)
    (hnd : (trips.map Prod.fst).Nodup)
    (hwfres : ∀ r ∈ results, (opts.outVG = true → r.2.2.1.isSome) ∧
      (opts.outGFA = true → r.2.2.2.isSome)) :
    ∃ opts' js, main_start g none opts lines = .ok (opts', js) ∧
      (pyStartsWith opts.outHal "s3://" = true →
        opts'.checkpointInfo = some (g opts.jobStore, opts.outHal) ∧
        (∀ p ∈ js, ∃ chrom, p.1 = some chrom ∧
          p.2.checkpointInfo =
            some (g opts.jobStore, pyJoin opts.outHal (chrom ++ ".hal")) ∧
          (pyJoin opts.outHal (chrom ++ ".hal"), g opts.jobStore) ∈
            chrom_job_writes cfg p.2 hal write ∧
          ((opts.outVG = true ∨ opts.outGFA = true) →
            ((pySplitext (pyJoin opts.outHal (chrom ++ ".hal"))).1 ++ ".vg",
              g opts.jobStore) ∈ chrom_job_writes cfg p.2 hal write) ∧
          (opts.outGFA = true →
            ((pySplitext (pyJoin opts.outHal (chrom ++ ".hal"))).1 ++ ".gfa.gz",
              g opts.jobStore) ∈ chrom_job_writes cfg p.2 hal write)) ∧
        main_post_run_exports makeURL opts' results = .ok []) ∧
      (pyStartsWith opts.outHal "s3://" = false →
        opts'.checkpointInfo = none ∧
        (∀ p ∈ js, p.2.checkpointInfo = none ∧
          chrom_job_writes cfg p.2 hal write = []) ∧
        ∃ es, main_post_run_exports makeURL opts' results = .ok es ∧
          ∀ r ∈ results,
            (r.2.1, makeURL (pyJoin opts.outHal (fmtKey r.1 ++ ".hal"))) ∈ es ∧
            (∀ v, opts.outVG = true → r.2.2.1 = some v →
              (v, makeURL (pyJoin opts.outHal (fmtKey r.1 ++ ".vg"))) ∈ es) ∧
            (∀ gf, opts.outGFA = true → r.2.2.2 = some gf →
              (gf, makeURL (pyJoin opts.outHal (fmtKey r.1 ++ ".gfa.gz"))) ∈ es)) := by
  have hmb := make_batch_align_jobs_ok (main_opts_after g opts) lines trips hb hp hnd
  have hms : main_start g none opts lines =
      .ok (main_opts_after g opts, stagger_jobs (main_opts_after g opts) 0 trips) := by
    rw [main_start_none_eq g opts lines hchk]
    rw [show ({ opts with
        checkpointInfo := main_checkpointInfo g opts.outHal opts.jobStore
        eventNameAsID := opts.pangenome || opts.pafInput } : MainOpts) =
      main_opts_after g opts from rfl, hmb]
  refine ⟨main_opts_after g opts, stagger_jobs (main_opts_after g opts) 0 trips,
    hms, ?_, ?_⟩
  · intro hs3
    have hcp : (main_opts_after g opts).checkpointInfo =
        some (g opts.jobStore, opts.outHal) := by
      simp [main_opts_after, main_checkpointInfo, hs3]
    refine ⟨hcp, ?_, ?_⟩
    · intro p hp2
      obtain ⟨c, s, a, δ, hmem, hval⟩ :=
        stagger_jobs_mem (main_opts_after g opts) 0 trips p hp2
      subst hval
      have hpcp : (mkChromOptions (main_opts_after g opts) δ c s a).checkpointInfo =
          some (g opts.jobStore, pyJoin opts.outHal (c ++ ".hal")) := by
        simp [mkChromOptions, chrom_checkpoint, hcp]
      obtain ⟨w1, w2, w3⟩ := chrom_job_writes_s3 cfg
        (mkChromOptions (main_opts_after g opts) δ c s a) hal write
        (g opts.jobStore) (pyJoin opts.outHal (c ++ ".hal")) hpcp
      exact ⟨c, rfl, hpcp, w1, fun hdo => w2 hdo, fun hgfa => w3 hgfa⟩
    · show main_post_run_exports makeURL (main_opts_after g opts) results = .ok []
      simp only [main_post_run_exports, main_opts_after]
      simp [hs3]
  · intro hs3
    have hcp : (main_opts_after g opts).checkpointInfo = none := by
      simp [main_opts_after, main_checkpointInfo, hs3]
    refine ⟨hcp, ?_, ?_⟩
    · intro p hp2
      obtain ⟨c, s, a, δ, hmem, hval⟩ :=
        stagger_jobs_mem (main_opts_after g opts) 0 trips p hp2
      subst hval
      have hpcp : (mkChromOptions (main_opts_after g opts) δ c s a).checkpointInfo = none := by
        simp [mkChromOptions, chrom_checkpoint, hcp]
      exact ⟨hpcp, chrom_job_writes_local cfg _ hal write hpcp⟩
    · obtain ⟨es, hes, hmem⟩ :=
        batch_go_ok makeURL (main_opts_after g opts) results hwfres
      refine ⟨es, ?_, hmem⟩
      show main_post_run_exports makeURL (main_opts_after g opts) results = .ok es
      have hcond : ¬ pyStartsWith (main_opts_after g opts).outHal "s3://" = true := by
        simp [main_opts_after, hs3]
      have hbt : (main_opts_after g opts).batch = true := hb
      unfold main_post_run_exports
      rw [if_pos hcond, if_pos hbt]
      exact hes

theorem s3_direct_checkpointing_witness :
    (∃ opts' js, main_start (fun _ => "usw") none
        { outHal := "s3://b/out", jobStore := "aws:usw:js", batch := true,
          outVG := true, outGFA := true, pangenome := false,
          pafInput := false, usePafSecondaries := false,
          nonCactusInput := false, stagger := 0, seqFile := "chromfile.txt",
          cigarsFile := [], checkpointInfo := none, eventNameAsID := false }
        ["chr1 s1 a1"] = .ok (opts', js) ∧
      opts'.checkpointInfo = some ("usw", "s3://b/out") ∧
      main_post_run_exports (fun s => s) opts'
        [(some "chr1", (1, some 2, some 3))] = .ok []) ∧
    (∃ opts' js, main_start (fun _ => "usw") none
        { outHal := "/tmp/out", jobStore := "./js", batch := true,
          outVG := true, outGFA := true, pangenome := false,
          pafInput := false, usePafSecondaries := false,
          nonCactusInput := false, stagger := 0, seqFile := "chromfile.txt",
          cigarsFile := [], checkpointInfo := none, eventNameAsID := false }
        ["chr1 s1 a1"] = .ok (opts', js) ∧
      opts'.checkpointInfo = none ∧
      (∀ p ∈ js, chrom_job_writes ⟨"_MINIGRAPH_", "", false, false, true, "Anc"⟩
        p.2 ⟨7, 100⟩ (fun s => s.length) = []) ∧
      ∃ es, main_post_run_exports (fun s => s) opts'
          [(some "chr1", (1, some 2, some 3))] = .ok es ∧
        (1, pyJoin "/tmp/out" "chr1.hal") ∈ es) := by
  constructor
  · obtain ⟨opts', js, hms, hA, -⟩ := s3_direct_checkpointing
      (fun _ => "usw")
      { outHal := "s3://b/out", jobStore := "aws:usw:js", batch := true,
        outVG := true, outGFA := true, pangenome := false,
        pafInput := false, usePafSecondaries := false,
        nonCactusInput := false, stagger := 0, seqFile := "chromfile.txt",
        cigarsFile := [], checkpointInfo := none, eventNameAsID := false }
      ["chr1 s1 a1"] [("chr1", "s1", "a1")]
      ⟨"_MINIGRAPH_", "", false, false, true, "Anc"⟩ ⟨7, 100⟩
      (fun s => s.length) (fun s => s) [(some "chr1", (1, some 2, some 3))]
      rfl rfl (by decide) (by decide)
      (by intro r hr; simp at hr; subst hr; exact ⟨fun _ => rfl, fun _ => rfl⟩)
    obtain ⟨hcp, -, hexp⟩ := hA (by decide)
    exact ⟨opts', js, hms, hcp, hexp⟩
  · obtain ⟨opts', js, hms, -, hB⟩ := s3_direct_checkpointing
      (fun _ => "usw")
      { outHal := "/tmp/out", jobStore := "./js", batch := true,
        outVG := true, outGFA := true, pangenome := false,
        pafInput := false, usePafSecondaries := false,
        nonCactusInput := false, stagger := 0, seqFile := "chromfile.txt",
        cigarsFile := [], checkpointInfo := none, eventNameAsID := false }
      ["chr1 s1 a1"] [("chr1", "s1", "a1")]
      ⟨"_MINIGRAPH_", "", false, false, true, "Anc"⟩ ⟨7, 100⟩
      (fun s => s.length) (fun s => s) [(some "chr1", (1, some 2, some 3))]
      rfl rfl (by decide) (by decide)
      (by intro r hr; simp at hr; subst hr; exact ⟨fun _ => rfl, fun _ => rfl⟩)
    obtain ⟨hcp, hwrites, es, hes, hmem⟩ := hB (by decide)
    refine ⟨opts', js, hms, hcp, fun p hp => (hwrites p hp).2, es, hes, ?_⟩
    exact (hmem (some "chr1", (1, some 2, some 3)) (by simp)).1

end Cactus
